import Mathlib

/-! ## String primitives (ASCII models of the Python string methods) -/

/-- `listIsPfx pat l` decides whether `pat` is a prefix of `l`
(Python `startswith`, over the character lists). -/
def listIsPfx : List Char → List Char → Bool
  | [], _ => true
  | _ :: _, [] => false
  | p :: ps, c :: cs => p == c && listIsPfx ps cs

/-- Python `s.startswith(p)`. -/
def pyStartsWith (s p : String) : Bool := listIsPfx p.toList s.toList

/-- Python `s.endswith(p)`. -/
def pyEndsWith (s p : String) : Bool := listIsPfx p.toList.reverse s.toList.reverse

/-- Python `str.strip()` on a character list: drop leading and trailing
whitespace. -/
def stripChars (l : List Char) : List Char :=
  ((l.dropWhile Char.isWhitespace).reverse.dropWhile Char.isWhitespace).reverse

/-- Python `s.strip()`. -/
def pyStrip (s : String) : String := (stripChars s.toList).asString

/-- Python `s.split(sep)` for a single-character separator, over character
lists: always returns one (possibly empty) piece more than the number of
separators, in order. -/
def splitOnChar (sep : Char) : List Char → List (List Char)
  | [] => [[]]
  | c :: rest =>
      match splitOnChar sep rest with
      | [] => [[]]
      | piece :: pieces =>
          if c == sep then [] :: piece :: pieces
          else (c :: piece) :: pieces

/-! ## Data model -/

/-- The closed set of element kinds produced by the parser
(the `'type'` field of each dictionary in `parse_play`). -/
inductive Kind : Type
  | heading
  | scene_marker
  | speaker
  | dialogue
  | stage_direction
  | unknown
deriving DecidableEq, Repr

/-- One parsed element: `{'type': kind, 'original': ..., 'translated': ...}`.
`translated` is `none` for Python `None`, `some s` for a string `s`. -/
structure Element where
  kind : Kind
  original : String
  translated : Option String
deriving DecidableEq, Repr

/-- Python truthiness of `element.get('translated')`:
`None` and `''` are falsy, every other string is truthy. -/
def translatedTruthy : Option String → Bool
  | none => false
  | some s => if s = "" then false else true

/-! ## Parser (`src/parser.py`, `parse_play`) -/

/-- A character of the class `[A-Z]` in the speaker regex. -/
def isUpperAZ (c : Char) : Bool := 'A' ≤ c && c ≤ 'Z'

/-- A character of the class `[A-Z\s]` in the speaker regex. -/
def speakerClass (c : Char) : Bool := isUpperAZ c || c.isWhitespace

/-- `re.match(r'^([A-Z][A-Z\s]{1,})(\.?)$', s)`, returning
`group(1).strip()` on a match.  A match consumes the whole line: an
optional final period (group 2), preceded by a group-1 portion of at
least two characters, the first in `[A-Z]`, the rest in `[A-Z\s]`. -/
def speakerMatch (s : String) : Option String :=
  let l := s.toList
  let t := match l.getLast? with
           | some c => if c = '.' then l.dropLast else l
           | none => l
  match t with
  | [] => none
  | c :: rest =>
      if isUpperAZ c && !rest.isEmpty && rest.all speakerClass then
        some (stripChars t).asString
      else none

/-- Python `str.isupper()` on the ASCII lines the program reads: at least
one letter, and no lowercase letter. -/
def pyIsUpper (s : String) : Bool :=
  s.toList.any (fun c => c.isAlpha) && s.toList.all (fun c => !c.isLower)

/-- The `stage_direction_keywords` list of `parse_play`. -/
def stageKeywords : List String := ["Enter ", "Exit ", "Exeunt", "Re-enter "]

/-- `is_bracketed` in `parse_play`: the stripped line is fully
bracket-delimited. -/
def isBracketed (s : String) : Bool :=
  (pyStartsWith s "[" && pyEndsWith s "]") || (pyStartsWith s "(" && pyEndsWith s ")")

/-- `starts_with_keyword` in `parse_play`. -/
def startsWithKeyword (s : String) : Bool :=
  stageKeywords.any (fun k => pyStartsWith s k)

/-- Python truthiness of `current_speaker` (`None` and `''` falsy). -/
def csTruthy : Option String → Bool
  | none => false
  | some s => if s = "" then false else true

/-- Convenience constructor for elements. -/
def mkEl (k : Kind) (o : String) (t : Option String) : Element :=
  { kind := k, original := o, translated := t }

/-- One iteration of the classification chain of `parse_play` on a raw
line, given the running `current_speaker` context.  Returns the elements
appended to `play_structure` (none for a blank line or a suppressed
duplicate speaker) and the updated `current_speaker`. -/
def parseStep (cs : Option String) (line : String) : List Element × Option String :=
  let s := pyStrip line
  if s = "" then ([], cs)
  else if s = "THE PROLOGUE" then
    ([mkEl Kind.heading s none], none)
  else if pyStartsWith s "ACT " || pyStartsWith s "SCENE " then
    ([mkEl Kind.scene_marker s none], none)
  else if pyIsUpper s && (speakerMatch s).isNone then
    ([mkEl Kind.heading s none], none)
  else if isBracketed s || (startsWithKeyword s && (speakerMatch s).isNone) then
    ([mkEl Kind.stage_direction s (some "")], cs)
  else
    match speakerMatch s with
    | some nm =>
        if some nm = cs then ([], cs)
        else ([mkEl Kind.speaker nm none], some nm)
    | none =>
        if csTruthy cs then ([mkEl Kind.dialogue s (some "")], cs)
        else ([mkEl Kind.unknown s none], cs)

/-- The scan of `parse_play` over a list of raw lines, threading
`current_speaker`. -/
def parseLinesAux (cs : Option String) : List String → List Element
  | [] => []
  | l :: rest =>
      let step := parseStep cs l
      step.1 ++ parseLinesAux step.2 rest

/-- `parse_play` restricted to its pure line-classification behaviour:
the element list produced from the given raw lines (initial
`current_speaker = None`). -/
def parseLines (ls : List String) : List Element := parseLinesAux none ls

/-! ## Translation driver (`src/main.py`, `main`) -/

/-- The backward scan of `main` deriving the speaker context for position
`index`: the `original` of the most recent `speaker` element strictly
before `index` (`for i in range(index - 1, -1, -1)`). -/
def speakerBefore (ps : List Element) : Nat → Option String
  | 0 => none
  | i + 1 =>
      match ps[i]? with
      | some e => if e.kind = Kind.speaker then some e.original else speakerBefore ps i
      | none => speakerBefore ps i

/-- `needs_translation` in `main`: kind `dialogue` or `stage_direction`
and a falsy `translated` field. -/
def needsTranslation (e : Element) : Bool :=
  (decide (e.kind = Kind.dialogue) || decide (e.kind = Kind.stage_direction))
    && !translatedTruthy e.translated

/-- The continuation condition of the dialogue look-ahead loop in `main`:
element `j` exists, is `dialogue`, derives the chunk's speaker, and is not
yet translated.  (For `j ≥ len(ps)` the Python `while j < total_elements`
guard stops the loop; here the condition is simply false.) -/
def chunkCond (ps : List Element) (cs : Option String) (j : Nat) : Bool :=
  match ps[j]? with
  | none => false
  | some e =>
      let nextSpeaker := if e.kind = Kind.dialogue then speakerBefore ps j else none
      decide (e.kind = Kind.dialogue) && decide (nextSpeaker = cs)
        && !translatedTruthy e.translated

/-- Length of the maximal run of consecutive positions from `j` satisfying
`chunkCond` (the dialogue look-ahead loop).  `fuel` bounds the iteration;
`ps.length` is always enough, because `chunkCond` is false past the end of
the list. -/
def chunkExtent (ps : List Element) (cs : Option String) : Nat → Nat → Nat
  | _, 0 => 0
  | j, fuel + 1 =>
      if chunkCond ps cs j then chunkExtent ps cs (j + 1) fuel + 1 else 0

/-- `indices_in_chunk` gathered by `main` for a dialogue chunk starting at
`index`. -/
def chunkIndices (ps : List Element) (index : Nat) : List Nat :=
  (List.range (chunkExtent ps (speakerBefore ps index) index ps.length)).map
    (fun k => index + k)

/-- Outcome of one `model.generate_content` call, as `main` distinguishes
them: non-empty `response.parts`; a block with `prompt_feedback.block_reason`;
an empty response; a raised exception of the named type. -/
inductive ApiResult : Type
  | success (text : String)
  | blocked (reason : String)
  | emptyResp
  | exn (typeName : String)
deriving DecidableEq, Repr

/-- The placeholder sentinel `'[Translated as part of previous chunk]'`. -/
def placeholderText : String := "[Translated as part of previous chunk]"

/-- The `error_message` string `main` builds for each failure outcome
(empty for a success, where none is built). -/
def errorMessageOf : ApiResult → String
  | ApiResult.success _ => ""
  | ApiResult.blocked r => "[Translation Blocked: " ++ r ++ "]"
  | ApiResult.emptyResp => "[Translation Error: Empty Response]"
  | ApiResult.exn n => "[Translation Error: " ++ n ++ "]"

/-- `play_structure[i]['translated'] = v` (no effect out of range, which
the driver never does). -/
def setTranslated (ps : List Element) (i : Nat) (v : Option String) : List Element :=
  match ps[i]? with
  | none => ps
  | some e => ps.set i { e with translated := v }

/-- Assign `v` to the `translated` field at every index in `idxs`. -/
def setAll (ps : List Element) (idxs : List Nat) (v : Option String) : List Element :=
  idxs.foldl (fun acc k => setTranslated acc k v) ps

/-- The response-handling block of `main` for one chunk: on success the
stripped response text goes to the first element and the placeholder
sentinel to the rest; on any failure the same `error_message` goes to
every element of the chunk. -/
def applyApiResult (ps : List Element) (idxs : List Nat) (r : ApiResult) : List Element :=
  match r with
  | ApiResult.success t =>
      match idxs with
      | [] => ps
      | first :: rest =>
          setAll (setTranslated ps first (some (pyStrip t))) rest (some placeholderText)
  | _ => setAll ps idxs (some (errorMessageOf r))

/-- The translation loop of `main`: walk the element list with a cursor,
skip elements that need no translation, gather a chunk (dialogue look-ahead
or single stage direction), submit it to the API oracle (`oracle calls` is
the outcome of the `calls`-th `generate_content` call of the run), record
the outcome, and advance past the chunk.  Returns the final element list
and the list of submitted chunks (as index lists, in submission order).
`fuel` bounds the iteration; since the cursor strictly advances,
`ps.length` is always enough. -/
def translateLoopF (oracle : Nat → ApiResult) :
    Nat → List Element → Nat → Nat → List Element × List (List Nat)
  | 0, ps, _, _ => (ps, [])
  | fuel + 1, ps, index, calls =>
      match ps[index]? with
      | none => (ps, [])
      | some e =>
          if needsTranslation e then
            if e.kind = Kind.dialogue then
              let idxs := chunkIndices ps index
              let ps2 := applyApiResult ps idxs (oracle calls)
              let rest := translateLoopF oracle fuel ps2 (index + idxs.length) (calls + 1)
              (rest.1, idxs :: rest.2)
            else
              let ps2 := applyApiResult ps [index] (oracle calls)
              let rest := translateLoopF oracle fuel ps2 (index + 1) (calls + 1)
              (rest.1, [index] :: rest.2)
          else
            translateLoopF oracle fuel ps (index + 1) calls

/-- A full translation pass of `main` over `ps` against the given API
oracle. -/
def runTranslate (oracle : Nat → ApiResult) (ps : List Element) :
    List Element × List (List Nat) :=
  translateLoopF oracle ps.length ps 0 0

/-- Whether the element at index `j` currently needs translation. -/
def needsAt (ps : List Element) (j : Nat) : Bool :=
  match ps[j]? with
  | some e => needsTranslation e
  | none => false

/-- The number of elements still needing translation. -/
def needingCount (ps : List Element) : Nat :=
  ((Finset.range ps.length).filter (fun i => needsAt ps i = true)).card

/-! ## Checkpoint loading (`src/main.py`, `load_checkpoint` and step 2 of `main`) -/

/-- The state of the checkpoint file as `load_checkpoint` can encounter it:
missing, present but failing to unpickle (raising inside the `try`), or
present and valid. -/
inductive CheckpointFile : Type
  | absent
  | corrupt (err : String)
  | valid (data : List Element)
deriving DecidableEq, Repr

/-- `load_checkpoint`: `None` when the file is missing; on an unpickling
error the exception is caught, a warning is printed, and `None` is
returned; otherwise the pickled structure. -/
def load_checkpoint : CheckpointFile → Option (List Element)
  | CheckpointFile.absent => none
  | CheckpointFile.corrupt _ => none
  | CheckpointFile.valid d => some d

/-- Whether `load_checkpoint` prints its "Error loading checkpoint"
warning (the `except` branch). -/
def loadCheckpointWarns : CheckpointFile → Bool
  | CheckpointFile.corrupt _ => true
  | _ => false

/-- Step 2 of `main`: take the checkpointed structure if one loads,
otherwise fall back to the fresh parse result `parsed`; an empty parse
result aborts the run (`none`). -/
def initialStructure (cp : CheckpointFile) (parsed : List Element) :
    Option (List Element) :=
  match load_checkpoint cp with
  | some ps => some ps
  | none => if parsed.isEmpty then none else some parsed

/-! ## `parse_play` with its read-error policy (`src/parser.py`) -/

/-- One raw line as delivered by iterating the opened file: either a
decoded line, or an exception (e.g. a `UnicodeDecodeError`) raised by the
read itself. -/
inductive LineRead : Type
  | ok (s : String)
  | exn (e : String)
deriving DecidableEq, Repr

/-- The observable outcome of `parse_play`: the `FileNotFoundError` raised
before the scan when the path does not exist; a completed scan; or a
caught mid-scan exception, which prints the last line number processed
(`none` for Python's `'unknown'`) and makes the function return `[]`. -/
inductive ParseResult : Type
  | fileNotFound
  | success (elems : List Element)
  | scanFailure (lastLine : Option Nat)
deriving DecidableEq, Repr

/-- The list `parse_play` returns to its caller, `none` when it raises
instead of returning: a mid-scan failure returns the empty list, not the
partial structure. -/
def returnedList : ParseResult → Option (List Element)
  | ParseResult.fileNotFound => none
  | ParseResult.success es => some es
  | ParseResult.scanFailure _ => some []

/-- The `for line_num, line in enumerate(f, 1)` scan of `parse_play`:
`acc` is `play_structure` so far, `lastLine` the last successfully read
line number, `n` the number of the next line. -/
def parseScan (cs : Option String) (acc : List Element) (lastLine : Option Nat)
    (n : Nat) : List LineRead → ParseResult
  | [] => ParseResult.success acc
  | LineRead.exn _ :: _ => ParseResult.scanFailure lastLine
  | LineRead.ok s :: rest =>
      let step := parseStep cs s
      parseScan step.2 (acc ++ step.1) (some n) (n + 1) rest

/-- `parse_play`: `none` models a path for which `os.path.exists` is
false (raising `FileNotFoundError` before any element is produced);
`some stream` models the opened file's reads. -/
def parse_play : Option (List LineRead) → ParseResult
  | none => ParseResult.fileNotFound
  | some stream => parseScan none [] none 1 stream

/-! ## Side-by-side HTML rows (`src/pdf_generator_weasyprint.py`) -/

/-- Python `html.escape(s, quote=True)`: the five escaped characters. -/
def escapeChar (c : Char) : List Char :=
  if c = '&' then "&amp;".toList
  else if c = '<' then "&lt;".toList
  else if c = '>' then "&gt;".toList
  else if c = '"' then "&quot;".toList
  else if c = '\x27' then "&#x27;".toList
  else [c]

/-- Python `html.escape(s, quote=True)`. -/
def escapeHtml (s : String) : String := ((s.toList.map escapeChar).flatten).asString

/-- The `&nbsp;` paragraph body emitted for preserved blank lines and
placeholder cells. -/
def nbspText : String := "&nbsp;"

/-- The paragraph bodies `create_pdf_weasyprint` emits for one column of a
dialogue pair: the text is split on newlines; each non-blank line becomes
one paragraph holding the HTML-escaped stripped line; a blank line becomes
an `&nbsp;` paragraph when the split produced more than one line. -/
def sideParagraphs (text : String) : List String :=
  let lines := (splitOnChar '\n' text.toList).map List.asString
  lines.filterMap (fun line =>
    let s := pyStrip line
    if s = "" then
      (if 1 < lines.length then some nbspText else none)
    else some (escapeHtml s))

/-- `element.get('translated', '') or ""`. -/
def rawTranslated : Option String → String
  | none => ""
  | some s => s

/-- The right-column paragraph bodies of a dialogue pair: the placeholder
sentinel renders one `&nbsp;` paragraph, an error sentinel (prefix
`[Translation`) renders itself escaped in one paragraph, and anything else
is rendered line by line like the left column. -/
def rightParagraphs (raw : String) : List String :=
  if raw = placeholderText then [nbspText]
  else if pyStartsWith raw "[Translation" then [escapeHtml raw]
  else sideParagraphs raw

/-- Follows the spec's words, for comparison with the renderer (refinement
check): `ceil(a / b)`. -/
def ceilDiv (a b : Nat) : Nat := (a + b - 1) / b

/-- Follows the spec's words, for comparison with the renderer (refinement
check): the proportional split of a text into `n` contiguous segments,
segment `i` spanning character offsets `len * i / n` to `len * (i+1) / n`
(the final segment reaching the true end, since `len * n / n = len`). -/
def specSplitSegments (l : List Char) (n : Nat) : List (List Char) :=
  (List.range n).map (fun i =>
    (l.drop (l.length * i / n)).take (l.length * (i + 1) / n - l.length * i / n))

/-! ## Rule flags of the classification chain (for the precedence claims) -/

/-- Rule 1: exact-literal heading. -/
def rule1 (s : String) : Bool := decide (s = "THE PROLOGUE")

/-- Rule 2: Act/Scene marker. -/
def rule2 (s : String) : Bool := pyStartsWith s "ACT " || pyStartsWith s "SCENE "

/-- Rule 3: general all-caps heading not matching the speaker pattern. -/
def rule3 (s : String) : Bool := pyIsUpper s && (speakerMatch s).isNone

/-- Rule 4: stage direction (bracketed, or keyword prefix and not a
speaker). -/
def rule4 (s : String) : Bool :=
  isBracketed s || (startsWithKeyword s && (speakerMatch s).isNone)

/-- Rule 5: the speaker pattern matches. -/
def rule5 (s : String) : Bool := (speakerMatch s).isSome

/-! ## Lemmas on the driver's element updates -/

/-- The kind and original text of an element (everything the driver never
writes). -/
def shape (e : Element) : Kind × String := (e.kind, e.original)

/-! ## Speaker-context invariant of the parsed sequence (claim C10) -/

/-- An element that does not reset the speaker context. -/
def noBarrier (e : Element) : Prop :=
  e.kind ≠ Kind.heading ∧ e.kind ≠ Kind.scene_marker

/-- Every dialogue element has a preceding speaker element with no
heading or scene marker in between. -/
def GoodList (es : List Element) : Prop :=
  ∀ (i : Nat) (e : Element), es[i]? = some e → e.kind = Kind.dialogue →
    ∃ (j : Nat) (e2 : Element), j < i ∧ es[j]? = some e2 ∧ e2.kind = Kind.speaker ∧
      ∀ (k : Nat) (x : Element), j < k → k < i → es[k]? = some x → noBarrier x

/-- The running `current_speaker` context is witnessed by a speaker
element with a barrier-free suffix up to the end of the list. -/
def CtxOK (es : List Element) (cs : Option String) : Prop :=
  ∀ nm : String, cs = some nm →
    ∃ (j : Nat) (e2 : Element), j < es.length ∧ es[j]? = some e2 ∧
      e2.kind = Kind.speaker ∧
      ∀ (k : Nat) (x : Element), j < k → k < es.length → es[k]? = some x → noBarrier x

/-! ## Sanity checks on concrete inputs -/

example : parseLines ["ROMEO", "ROMEO", "Hello."] =
    [mkEl Kind.speaker "ROMEO" none, mkEl Kind.dialogue "Hello." (some "")] := by
  decide

example : (parseStep none "ENTER ROMEO").1 = [mkEl Kind.speaker "ENTER ROMEO" none] := by
  decide

example : (parseStep none "ENTER ROMEO!").1 = [mkEl Kind.heading "ENTER ROMEO!" none] := by
  decide

example : (parseStep (some "X") "Enter Romeo").1 =
    [mkEl Kind.stage_direction "Enter Romeo" (some "")] := by
  decide

example : parseLines ["ACT I", "SCENE I. A room.", "ROMEO", "Hello there.", "Fair thee well."] =
    [mkEl Kind.scene_marker "ACT I" none,
     mkEl Kind.scene_marker "SCENE I. A room." none,
     mkEl Kind.speaker "ROMEO" none,
     mkEl Kind.dialogue "Hello there." (some ""),
     mkEl Kind.dialogue "Fair thee well." (some "")] := by
  decide

example :
    runTranslate (fun _ => ApiResult.success " yo ")
      [mkEl Kind.speaker "ROMEO" none,
       mkEl Kind.dialogue "a" (some ""),
       mkEl Kind.dialogue "b" (some ""),
       mkEl Kind.stage_direction "Exit." (some "")] =
    ([mkEl Kind.speaker "ROMEO" none,
      mkEl Kind.dialogue "a" (some "yo"),
      mkEl Kind.dialogue "b" (some placeholderText),
      mkEl Kind.stage_direction "Exit." (some "yo")],
     [[1, 2], [3]]) := by
  decide

example :
    runTranslate (fun _ => ApiResult.exn "ConnectionError")
      [mkEl Kind.dialogue "a" (some ""),
       mkEl Kind.dialogue "b" (some "done"),
       mkEl Kind.dialogue "c" (some "")] =
    ([mkEl Kind.dialogue "a" (some "[Translation Error: ConnectionError]"),
      mkEl Kind.dialogue "b" (some "done"),
      mkEl Kind.dialogue "c" (some "[Translation Error: ConnectionError]")],
     [[0], [2]]) := by
  decide

example : parse_play (some [LineRead.ok "ROMEO", LineRead.exn "UnicodeDecodeError"]) =
    ParseResult.scanFailure (some 1) := by decide

example : parse_play (some [LineRead.exn "UnicodeDecodeError"]) =
    ParseResult.scanFailure none := by decide

example : sideParagraphs "abcdef" = ["abcdef"] := by decide

example : (specSplitSegments "abcdef".toList 3).map List.asString = ["ab", "cd", "ef"] := by
  decide

example : sideParagraphs "Line one.\n\nLine <b>." = ["Line one.", nbspText, "Line &lt;b&gt;."] := by
  decide

example : rightParagraphs placeholderText = [nbspText] := by decide

example : rightParagraphs "[Translation Error: Empty Response]" =
    ["[Translation Error: Empty Response]"] := by decide

/-- C2: for every non-blank trimmed input line the classification chain of
`parse_play` assigns exactly one kind, deciding by the fixed precedence
order of rules 1 to 7 (exact-literal heading; ACT/SCENE prefix; all-caps
non-speaker heading; stage direction; speaker, with duplicate-name
suppression; dialogue when a speaker context is active; unknown), the
first matching rule winning; blank lines produce no element at all. -/
theorem c2_classification_precedence (cs : Option String) (s : String)
    (hs : pyStrip s = s) (hne : s ≠ "") :
    (rule1 s = true → parseStep cs s = ([mkEl Kind.heading s none], none)) ∧
    (rule1 s = false → rule2 s = true →
        parseStep cs s = ([mkEl Kind.scene_marker s none], none)) ∧
    (rule1 s = false → rule2 s = false → rule3 s = true →
        parseStep cs s = ([mkEl Kind.heading s none], none)) ∧
    (rule1 s = false → rule2 s = false → rule3 s = false → rule4 s = true →
        parseStep cs s = ([mkEl Kind.stage_direction s (some "")], cs)) ∧
    (rule1 s = false → rule2 s = false → rule3 s = false → rule4 s = false →
        ∀ nm, speakerMatch s = some nm →
          parseStep cs s =
            (if some nm = cs then ([], cs) else ([mkEl Kind.speaker nm none], some nm))) ∧
    (rule1 s = false → rule2 s = false → rule3 s = false → rule4 s = false →
        rule5 s = false → csTruthy cs = true →
        parseStep cs s = ([mkEl Kind.dialogue s (some "")], cs)) ∧
    (rule1 s = false → rule2 s = false → rule3 s = false → rule4 s = false →
        rule5 s = false → csTruthy cs = false →
        parseStep cs s = ([mkEl Kind.unknown s none], cs)) ∧
    (∀ blank, pyStrip blank = "" → parseStep cs blank = ([], cs)) := by
  refine ⟨?_, ?_, ?_, ?_, ?_, ?_, ?_, ?_⟩
  · intro h1
    have e1 : s = "THE PROLOGUE" := of_decide_eq_true h1
    subst e1
    simp [parseStep, hs]
  · intro h1 h2
    have e1 : ¬(s = "THE PROLOGUE") := of_decide_eq_false h1
    rw [rule2] at h2
    simp [parseStep, hs, hne, e1, h2]
  · intro h1 h2 h3
    have e1 : ¬(s = "THE PROLOGUE") := of_decide_eq_false h1
    rw [rule2] at h2
    rw [rule3] at h3
    simp [parseStep, hs, hne, e1, h2, h3]
  · intro h1 h2 h3 h4
    have e1 : ¬(s = "THE PROLOGUE") := of_decide_eq_false h1
    rw [rule2] at h2
    rw [rule3] at h3
    rw [rule4] at h4
    simp [parseStep, hs, hne, e1, h2, h3, h4]
  · intro h1 h2 h3 h4 nm hnm
    have e1 : ¬(s = "THE PROLOGUE") := of_decide_eq_false h1
    rw [rule2] at h2
    rw [rule4] at h4
    obtain ⟨h4a, _⟩ := Bool.or_eq_false_iff.mp h4
    simp [parseStep, hs, hne, e1, h2, h4a, hnm]
  · intro h1 h2 h3 h4 h5 h6
    have e1 : ¬(s = "THE PROLOGUE") := of_decide_eq_false h1
    rw [rule2] at h2
    rw [rule3] at h3
    rw [rule4] at h4
    rw [rule5] at h5
    have h5n : speakerMatch s = none := Option.not_isSome_iff_eq_none.mp (by simp [h5])
    obtain ⟨h4a, h4b⟩ := Bool.or_eq_false_iff.mp h4
    have h3a : pyIsUpper s = false := by
      rcases Bool.and_eq_false_iff.mp h3 with h | h
      · exact h
      · rw [h5n] at h; simp at h
    have h4c : startsWithKeyword s = false := by
      rcases Bool.and_eq_false_iff.mp h4b with h | h
      · exact h
      · rw [h5n] at h; simp at h
    simp [parseStep, hs, hne, e1, h2, h3a, h4a, h4c, h5n, h6]
  · intro h1 h2 h3 h4 h5 h6
    have e1 : ¬(s = "THE PROLOGUE") := of_decide_eq_false h1
    rw [rule2] at h2
    rw [rule3] at h3
    rw [rule4] at h4
    rw [rule5] at h5
    have h5n : speakerMatch s = none := Option.not_isSome_iff_eq_none.mp (by simp [h5])
    obtain ⟨h4a, h4b⟩ := Bool.or_eq_false_iff.mp h4
    have h3a : pyIsUpper s = false := by
      rcases Bool.and_eq_false_iff.mp h3 with h | h
      · exact h
      · rw [h5n] at h; simp at h
    have h4c : startsWithKeyword s = false := by
      rcases Bool.and_eq_false_iff.mp h4b with h | h
      · exact h
      · rw [h5n] at h; simp at h
    simp [parseStep, hs, hne, e1, h2, h3a, h4a, h4c, h5n, h6]
  · intro blank hb
    simp [parseStep, hb]

/-- Closed instance of the precedence theorem: an ACT line is claimed by
rule 2. -/
theorem c2_classification_precedence_witness :
    parseStep none "ACT I" = ([mkEl Kind.scene_marker "ACT I" none], none) :=
  (c2_classification_precedence none "ACT I" (by decide) (by decide)).2.1
    (by decide) (by decide)

/-- C5 counterexample: the suppression clause is not universal over lines
matching the speaker pattern.  After `"THE PROLOGUE."` the active speaker
context is `"THE PROLOGUE"`; the next line `"THE PROLOGUE"` matches the
speaker pattern with that very name, yet rule 1 claims it first and a
heading element is emitted, not nothing. -/
theorem c5_counterexample :
    speakerMatch "THE PROLOGUE" = some "THE PROLOGUE" ∧
    parseLines ["THE PROLOGUE.", "THE PROLOGUE"] =
      [mkEl Kind.speaker "THE PROLOGUE" none, mkEl Kind.heading "THE PROLOGUE" none] ∧
    (parseStep (some "THE PROLOGUE") "THE PROLOGUE").1 ≠ [] := by
  decide

/-- C5 (amended): for every line that reaches rule 5 (rules 1 to 4 do not
claim it) and whose speaker-pattern name is identical to the active
speaker context, the parser emits no element and keeps the context; and on
the input `["ROMEO", "ROMEO", "Hello."]` the output is exactly one speaker
element followed by one dialogue element. -/
theorem c5_speaker_suppression :
    (∀ (cs : Option String) (line : String) (nm : String),
        rule1 (pyStrip line) = false → rule2 (pyStrip line) = false →
        rule4 (pyStrip line) = false →
        speakerMatch (pyStrip line) = some nm → cs = some nm →
        parseStep cs line = ([], cs)) ∧
    parseLines ["ROMEO", "ROMEO", "Hello."] =
      [mkEl Kind.speaker "ROMEO" none, mkEl Kind.dialogue "Hello." (some "")] := by
  constructor
  · intro cs line nm h1 h2 h4 hnm hcs
    have e1 : ¬(pyStrip line = "THE PROLOGUE") := of_decide_eq_false h1
    rw [rule2] at h2
    rw [rule4] at h4
    obtain ⟨h4a, _⟩ := Bool.or_eq_false_iff.mp h4
    have hse : ¬(pyStrip line = "") := by
      intro h
      rw [h] at hnm
      have hz : speakerMatch "" = none := by decide
      rw [hz] at hnm
      cases hnm
    simp [parseStep, hse, e1, h2, h4a, hnm, hcs]
  · decide

/-- Closed instance of the suppression clause at the `"ROMEO"` input. -/
theorem c5_speaker_suppression_witness :
    parseStep (some "ROMEO") "ROMEO" = ([], some "ROMEO") :=
  c5_speaker_suppression.1 (some "ROMEO") "ROMEO" "ROMEO"
    (by decide) (by decide) (by decide) (by decide) rfl

/-- C6 counterexample: the all-caps line `"ENTER ROMEO"` is not classified
as a general heading: it matches the speaker pattern, so rule 3 passes it
over and rule 5 classifies it as a speaker declaration. -/
theorem c6_counterexample :
    (parseStep none "ENTER ROMEO").1 = [mkEl Kind.speaker "ENTER ROMEO" none] ∧
    Kind.speaker ≠ Kind.heading := by
  decide

/-- C6 (amended): the stage-direction keyword prefixes are checked in
exact mixed case, so `"ENTER ROMEO"` is indeed not a stage direction — but
since it matches the speaker pattern it becomes a speaker declaration, not
a general heading; an all-caps keyword line that fails the speaker pattern
(such as `"ENTER ROMEO!"`) is the one classified as a general heading,
while the mixed-case `"Enter Romeo"` is a stage direction. -/
theorem c6_allcaps_keyword_lines :
    parseStep none "ENTER ROMEO" = ([mkEl Kind.speaker "ENTER ROMEO" none], some "ENTER ROMEO") ∧
    startsWithKeyword "ENTER ROMEO" = false ∧
    parseStep none "ENTER ROMEO!" = ([mkEl Kind.heading "ENTER ROMEO!" none], none) ∧
    (∀ cs : Option String,
        parseStep cs "Enter Romeo" = ([mkEl Kind.stage_direction "Enter Romeo" (some "")], cs)) := by
  refine ⟨by decide, by decide, by decide, fun cs => rfl⟩

/-- Closed instance of the mixed-case stage-direction clause. -/
theorem c6_allcaps_keyword_lines_witness :
    parseStep none "Enter Romeo" = ([mkEl Kind.stage_direction "Enter Romeo" (some "")], none) :=
  c6_allcaps_keyword_lines.2.2.2 none

/-- C9: a checkpoint file that exists but fails to load is non-fatal:
`load_checkpoint` warns and returns `None` instead of propagating the
exception, exactly as for a missing file, and the run proceeds from the
fresh parse result. -/
theorem c9_checkpoint_corruption_nonfatal (err : String) (parsed : List Element)
    (h : parsed ≠ []) :
    load_checkpoint (CheckpointFile.corrupt err) = none ∧
    loadCheckpointWarns (CheckpointFile.corrupt err) = true ∧
    initialStructure (CheckpointFile.corrupt err) parsed = some parsed ∧
    initialStructure (CheckpointFile.corrupt err) parsed =
      initialStructure CheckpointFile.absent parsed := by
  refine ⟨rfl, rfl, ?_, ?_⟩ <;>
    simp [initialStructure, load_checkpoint, List.isEmpty_iff, h]

/-- Closed instance of the corruption-handling theorem. -/
theorem c9_checkpoint_corruption_nonfatal_witness :
    load_checkpoint (CheckpointFile.corrupt "bad pickle") = none ∧
    loadCheckpointWarns (CheckpointFile.corrupt "bad pickle") = true ∧
    initialStructure (CheckpointFile.corrupt "bad pickle") [mkEl Kind.unknown "x" none] =
      some [mkEl Kind.unknown "x" none] ∧
    initialStructure (CheckpointFile.corrupt "bad pickle") [mkEl Kind.unknown "x" none] =
      initialStructure CheckpointFile.absent [mkEl Kind.unknown "x" none] :=
  c9_checkpoint_corruption_nonfatal "bad pickle" [mkEl Kind.unknown "x" none] (by decide)

/-- C3 counterexample: the renderer does not perform the threshold-based
proportional split.  With original `"abcdef"`, translated `"x"` and
threshold 2 the spec's formula demands `N = 3` rows with left segments
`["ab", "cd", "ef"]`; the renderer emits a single left paragraph
`"abcdef"` and a single right paragraph `"x"`. -/
theorem c3_counterexample :
    ceilDiv (max "abcdef".length "x".length) 2 = 3 ∧
    sideParagraphs "abcdef" = ["abcdef"] ∧
    rightParagraphs "x" = ["x"] ∧
    (specSplitSegments "abcdef".toList 3).map List.asString = ["ab", "cd", "ef"] ∧
    sideParagraphs "abcdef" ≠ (specSplitSegments "abcdef".toList 3).map List.asString := by
  decide

/-- The first `n` proportional segments concatenate to the first
`len * n / N` characters. -/
theorem specSplit_flatten_take (l : List Char) (N : Nat) :
    ∀ n, n ≤ N →
      ((List.range n).map (fun i =>
        (l.drop (l.length * i / N)).take (l.length * (i + 1) / N - l.length * i / N))).flatten
      = l.take (l.length * n / N) := by
  intro n
  induction n with
  | zero => intro _; simp
  | succ m ih =>
      intro hm
      have hmono : l.length * m / N ≤ l.length * (m + 1) / N :=
        Nat.div_le_div_right (Nat.mul_le_mul_left _ (Nat.le_succ m))
      rw [List.range_succ, List.map_append, List.flatten_append,
        ih (Nat.le_of_succ_le hm)]
      simp only [List.map_cons, List.map_nil, List.flatten_cons, List.flatten_nil,
        List.append_nil]
      rw [← List.take_add, Nat.add_sub_cancel' hmono]

/-- C3 (amended): the renderer performs no threshold-based proportional
split — each side of a dialogue pair is rendered from its own
newline-split lines, independently, so the two sides' row counts can
differ.  The spec's proportional-offset formula itself is lossless: for
any text and any `n ≥ 1`, the concatenation of its `n` segments is
exactly the text, with no character range dropped or duplicated. -/
theorem c3_proportional_split :
    (∀ (l : List Char) (n : Nat), 1 ≤ n → (specSplitSegments l n).flatten = l) ∧
    sideParagraphs "abc\ndef" = ["abc", "def"] ∧
    rightParagraphs "xy" = ["xy"] ∧
    (sideParagraphs "abc\ndef").length ≠ (rightParagraphs "xy").length := by
  refine ⟨?_, by decide, by decide, by decide⟩
  intro l n hn
  have h := specSplit_flatten_take l n n le_rfl
  rw [specSplitSegments, h, Nat.mul_div_cancel _ hn, List.take_length]

/-- Closed instance of the losslessness clause of the amended C3. -/
theorem c3_proportional_split_witness :
    (specSplitSegments "hello".toList 2).flatten = "hello".toList :=
  c3_proportional_split.1 "hello".toList 2 (by decide)

/-- The scan never produces the `FileNotFoundError` outcome: that is
raised before the scan starts. -/
theorem parseScan_ne_fileNotFound :
    ∀ (stream : List LineRead) (cs : Option String) (acc : List Element)
      (last : Option Nat) (n : Nat),
      parseScan cs acc last n stream ≠ ParseResult.fileNotFound := by
  intro stream
  induction stream with
  | nil => intro cs acc last n h; cases h
  | cons r rest ih =>
      intro cs acc last n
      cases r with
      | ok s => exact ih _ _ _ _
      | exn e => intro h; cases h

/-- A read exception after `pre` successfully read lines stops the scan
with the last processed line number and no elements returned. -/
theorem parseScan_exn (e : String) (rest : List LineRead) :
    ∀ (pre : List String) (cs : Option String) (acc : List Element)
      (last : Option Nat) (n : Nat),
      parseScan cs acc last n (pre.map LineRead.ok ++ LineRead.exn e :: rest) =
        ParseResult.scanFailure (if pre.length = 0 then last else some (n + pre.length - 1)) := by
  intro pre
  induction pre with
  | nil => intro cs acc last n; simp [parseScan]
  | cons p ps ih =>
      intro cs acc last n
      simp only [List.map_cons, List.cons_append, parseScan, List.append_eq]
      rw [ih]
      by_cases h : ps.length = 0
      · simp [h]
      · simp only [h, if_false, List.length_cons]
        have : ¬(ps.length + 1 = 0) := by omega
        simp only [this, if_false]
        congr 2
        omega

/-- C7 counterexample: a decode error while reading does not make
`parse_play` fail with an I/O error.  The exception is caught by the
scan's handler and the function returns the empty list to its caller — a
normal return, the same path as any other mid-scan exception — so the
claim's "fails with a generic I/O error" clause is false on the code. -/
theorem c7_counterexample :
    parse_play (some [LineRead.exn "UnicodeDecodeError"]) = ParseResult.scanFailure none ∧
    returnedList (parse_play (some [LineRead.exn "UnicodeDecodeError"])) = some [] ∧
    returnedList (parse_play (some [LineRead.exn "UnicodeDecodeError"])) ≠ none := by
  decide

/-- C7 (amended): a missing file raises `FileNotFoundError` before any
element is produced, and that is the only outcome raised to the caller;
every exception while reading or scanning — a decode error included — is
caught: the parser reports the failure with the last line number processed
(`none` standing for Python's `'unknown'` when no line was processed) and
returns the empty list, never a partial element sequence. -/
theorem c7_parse_error_policy :
    parse_play none = ParseResult.fileNotFound ∧
    (∀ stream : List LineRead, parse_play (some stream) ≠ ParseResult.fileNotFound) ∧
    (∀ (pre : List String) (e : String) (rest : List LineRead),
        parse_play (some (pre.map LineRead.ok ++ LineRead.exn e :: rest)) =
          ParseResult.scanFailure (if pre.length = 0 then none else some pre.length) ∧
        returnedList
          (parse_play (some (pre.map LineRead.ok ++ LineRead.exn e :: rest))) = some []) := by
  refine ⟨rfl, ?_, ?_⟩
  · intro stream
    exact parseScan_ne_fileNotFound stream none [] none 1
  · intro pre e rest
    have h := parseScan_exn e rest pre none [] none 1
    constructor
    · rw [parse_play, h]
      by_cases hp : pre.length = 0
      · simp [hp]
      · simp only [hp, if_false]
        have hx : 1 + pre.length - 1 = pre.length := by omega
        rw [hx]
    · rw [parse_play, h]
      rfl

/-- Closed instance: a decode error on the second line reports last
processed line 1 and returns the empty list. -/
theorem c7_parse_error_policy_witness :
    parse_play (some [LineRead.ok "ROMEO", LineRead.exn "UnicodeDecodeError"]) =
      ParseResult.scanFailure (some 1) ∧
    returnedList
      (parse_play (some [LineRead.ok "ROMEO", LineRead.exn "UnicodeDecodeError"])) =
      some [] :=
  c7_parse_error_policy.2.2 ["ROMEO"] "UnicodeDecodeError" []

theorem setAll_nil (ps : List Element) (v : Option String) : setAll ps [] v = ps := rfl

theorem setAll_cons (ps : List Element) (k : Nat) (rest : List Nat) (v : Option String) :
    setAll ps (k :: rest) v = setAll (setTranslated ps k v) rest v := rfl

theorem applyApiResult_success_nil (ps : List Element) (t : String) :
    applyApiResult ps [] (ApiResult.success t) = ps := rfl

theorem applyApiResult_success_cons (ps : List Element) (t : String) (first : Nat)
    (rest : List Nat) :
    applyApiResult ps (first :: rest) (ApiResult.success t) =
      setAll (setTranslated ps first (some (pyStrip t))) rest (some placeholderText) := rfl

theorem applyApiResult_failure (ps : List Element) (idxs : List Nat) (r : ApiResult)
    (h : ∀ t, r ≠ ApiResult.success t) :
    applyApiResult ps idxs r = setAll ps idxs (some (errorMessageOf r)) := by
  cases r with
  | success t => exact absurd rfl (h t)
  | blocked reason => rfl
  | emptyResp => rfl
  | exn n => rfl

theorem setTranslated_length (ps : List Element) (i : Nat) (v : Option String) :
    (setTranslated ps i v).length = ps.length := by
  rw [setTranslated]
  cases ps[i]? with
  | none => rfl
  | some e => exact List.length_set ps i _

theorem getElem?_setTranslated_ne (ps : List Element) (i : Nat) (v : Option String)
    (j : Nat) (h : j ≠ i) : (setTranslated ps i v)[j]? = ps[j]? := by
  rw [setTranslated]
  cases ps[i]? with
  | none => rfl
  | some e => exact List.getElem?_set_ne (fun he => h he.symm)

theorem getElem?_setTranslated_self (ps : List Element) (i : Nat) (v : Option String)
    (e : Element) (h : ps[i]? = some e) :
    (setTranslated ps i v)[i]? = some { e with translated := v } := by
  rw [setTranslated, h]
  exact List.getElem?_set_self (List.getElem?_eq_some.mp h).1

theorem getElem?_setTranslated_shape (ps : List Element) (i : Nat) (v : Option String)
    (j : Nat) :
    ((setTranslated ps i v)[j]?).map shape = (ps[j]?).map shape := by
  by_cases hj : j = i
  · subst hj
    cases h : ps[j]? with
    | none => simp [setTranslated, h]
    | some e => simp [getElem?_setTranslated_self ps j v e h, h, shape]
  · rw [getElem?_setTranslated_ne ps i v j hj]

theorem setAll_length (idxs : List Nat) :
    ∀ (ps : List Element) (v : Option String), (setAll ps idxs v).length = ps.length := by
  induction idxs with
  | nil => intro ps v; rfl
  | cons k rest ih =>
      intro ps v
      rw [setAll_cons, ih, setTranslated_length]

theorem getElem?_setAll_not_mem (idxs : List Nat) :
    ∀ (ps : List Element) (v : Option String) (j : Nat), j ∉ idxs →
      (setAll ps idxs v)[j]? = ps[j]? := by
  induction idxs with
  | nil => intro ps v j _; rfl
  | cons k rest ih =>
      intro ps v j hj
      rw [setAll_cons, ih _ _ _ (fun hm => hj (List.mem_cons_of_mem _ hm)),
        getElem?_setTranslated_ne _ _ _ _
          (fun he => hj (by rw [he]; exact List.mem_cons_self _ _))]

theorem getElem?_setAll_mem (idxs : List Nat) :
    ∀ (ps : List Element) (v : Option String) (j : Nat) (e : Element), j ∈ idxs →
      ps[j]? = some e → (setAll ps idxs v)[j]? = some { e with translated := v } := by
  induction idxs with
  | nil => intro ps v j e hj _; cases hj
  | cons k rest ih =>
      intro ps v j e hj he
      rw [setAll_cons]
      by_cases hjr : j ∈ rest
      · by_cases hjk : j = k
        · subst hjk
          have h2 := getElem?_setTranslated_self ps j v e he
          have h3 := ih (setTranslated ps j v) v j { e with translated := v } hjr h2
          simpa using h3
        · exact ih _ _ _ _ hjr ((getElem?_setTranslated_ne ps k v j hjk) ▸ he)
      · have hjk : j = k := by
          rcases List.mem_cons.mp hj with h | h
          · exact h
          · exact absurd h hjr
        subst hjk
        rw [getElem?_setAll_not_mem rest _ _ _ hjr,
          getElem?_setTranslated_self ps j v e he]

theorem getElem?_setAll_shape (idxs : List Nat) :
    ∀ (ps : List Element) (v : Option String) (j : Nat),
      ((setAll ps idxs v)[j]?).map shape = (ps[j]?).map shape := by
  induction idxs with
  | nil => intro ps v j; rfl
  | cons k rest ih =>
      intro ps v j
      rw [setAll_cons, ih (setTranslated ps k v) v j, getElem?_setTranslated_shape]

theorem applyApiResult_length (ps : List Element) (idxs : List Nat) (r : ApiResult) :
    (applyApiResult ps idxs r).length = ps.length := by
  cases r with
  | success t =>
      cases idxs with
      | nil => rfl
      | cons first rest =>
          rw [applyApiResult_success_cons, setAll_length, setTranslated_length]
  | blocked reason => rw [applyApiResult_failure _ _ _ (by intro t h; cases h), setAll_length]
  | emptyResp => rw [applyApiResult_failure _ _ _ (by intro t h; cases h), setAll_length]
  | exn n => rw [applyApiResult_failure _ _ _ (by intro t h; cases h), setAll_length]

theorem getElem?_applyApiResult_not_mem (ps : List Element) (idxs : List Nat)
    (r : ApiResult) (j : Nat) (h : j ∉ idxs) :
    (applyApiResult ps idxs r)[j]? = ps[j]? := by
  cases r with
  | success t =>
      cases idxs with
      | nil => rfl
      | cons first rest =>
          rw [applyApiResult_success_cons,
            getElem?_setAll_not_mem rest _ _ _ (fun hm => h (List.mem_cons_of_mem _ hm)),
            getElem?_setTranslated_ne _ _ _ _
              (fun he => h (by rw [he]; exact List.mem_cons_self _ _))]
  | blocked reason =>
      rw [applyApiResult_failure _ _ _ (by intro t hh; cases hh),
        getElem?_setAll_not_mem _ _ _ _ h]
  | emptyResp =>
      rw [applyApiResult_failure _ _ _ (by intro t hh; cases hh),
        getElem?_setAll_not_mem _ _ _ _ h]
  | exn n =>
      rw [applyApiResult_failure _ _ _ (by intro t hh; cases hh),
        getElem?_setAll_not_mem _ _ _ _ h]

theorem getElem?_applyApiResult_shape (ps : List Element) (idxs : List Nat)
    (r : ApiResult) (j : Nat) :
    ((applyApiResult ps idxs r)[j]?).map shape = (ps[j]?).map shape := by
  cases r with
  | success t =>
      cases idxs with
      | nil => rfl
      | cons first rest =>
          rw [applyApiResult_success_cons, getElem?_setAll_shape,
            getElem?_setTranslated_shape]
  | blocked reason =>
      rw [applyApiResult_failure _ _ _ (by intro t hh; cases hh), getElem?_setAll_shape]
  | emptyResp =>
      rw [applyApiResult_failure _ _ _ (by intro t hh; cases hh), getElem?_setAll_shape]
  | exn n =>
      rw [applyApiResult_failure _ _ _ (by intro t hh; cases hh), getElem?_setAll_shape]

theorem speakerBefore_congr (ps2 ps : List Element)
    (h : ∀ j : Nat, (ps2[j]?).map shape = (ps[j]?).map shape) :
    ∀ i, speakerBefore ps2 i = speakerBefore ps i := by
  intro i
  induction i with
  | zero => rfl
  | succ m ih =>
      rw [speakerBefore, speakerBefore]
      have hm := h m
      cases hp : ps[m]? with
      | none =>
          rw [hp, Option.map_none', Option.map_eq_none'] at hm
          rw [hm, ih]
      | some e =>
          rw [hp] at hm
          cases hp2 : ps2[m]? with
          | none =>
              rw [hp2, Option.map_none', Option.map_some'] at hm
              exact Option.noConfusion hm
          | some e2 =>
              rw [hp2, Option.map_some', Option.map_some'] at hm
              have hse := Option.some.inj hm
              have hk : e2.kind = e.kind := congrArg Prod.fst hse
              have ho : e2.original = e.original := congrArg Prod.snd hse
              show (if e2.kind = Kind.speaker then some e2.original else speakerBefore ps2 m)
                  = (if e.kind = Kind.speaker then some e.original else speakerBefore ps m)
              rw [hk, ho, ih]

/-- A string with a non-empty right append part is non-empty. -/
theorem append_ne_empty_right (a b : String) (hb : b ≠ "") : a ++ b ≠ "" := by
  intro h
  have hl : a.length + b.length = 0 := by rw [← String.length_append, h]; rfl
  have hb0 : b.length = 0 := by omega
  apply hb
  cases b with
  | mk data =>
      cases data with
      | nil => rfl
      | cons c cs => simp [String.length] at hb0

/-- The error sentinel built for a failure outcome is never empty. -/
theorem errorMessageOf_ne_empty (r : ApiResult) (h : ∀ s, r ≠ ApiResult.success s) :
    errorMessageOf r ≠ "" := by
  cases r with
  | success t => exact absurd rfl (h t)
  | blocked reason => exact append_ne_empty_right _ _ (by decide)
  | emptyResp => decide
  | exn n => exact append_ne_empty_right _ _ (by decide)

/-- C4: chunk result assignment is asymmetric on success and uniform on
failure.  On a successful call the (stripped) returned text is assigned to
the chunk's first element and every other element of the chunk receives
the placeholder sentinel; on any failure (blocked, empty or exception)
every element of the chunk, the first included, receives the one identical
error sentinel, which is a non-empty (truthy) string, so no element of the
chunk retains an empty `translated` field. -/
theorem c4_chunk_result_assignment (ps : List Element) (t : String) (first : Nat)
    (rest : List Nat) (r : ApiResult) (hnd : first ∉ rest) :
    (∀ e : Element, ps[first]? = some e →
        (applyApiResult ps (first :: rest) (ApiResult.success t))[first]? =
          some { e with translated := some (pyStrip t) }) ∧
    (∀ j ∈ rest, ∀ e : Element, ps[j]? = some e →
        (applyApiResult ps (first :: rest) (ApiResult.success t))[j]? =
          some { e with translated := some placeholderText }) ∧
    ((∀ s, r ≠ ApiResult.success s) →
        (∀ j ∈ first :: rest, ∀ e : Element, ps[j]? = some e →
            (applyApiResult ps (first :: rest) r)[j]? =
              some { e with translated := some (errorMessageOf r) }) ∧
        errorMessageOf r ≠ "" ∧
        translatedTruthy (some (errorMessageOf r)) = true) := by
  refine ⟨?_, ?_, ?_⟩
  · intro e he
    rw [applyApiResult_success_cons, getElem?_setAll_not_mem rest _ _ _ hnd,
      getElem?_setTranslated_self ps first _ e he]
  · intro j hj e he
    have hjf : j ≠ first := fun hh => hnd (hh ▸ hj)
    rw [applyApiResult_success_cons]
    exact getElem?_setAll_mem rest _ _ j e hj
      ((getElem?_setTranslated_ne ps first _ j hjf).trans he)
  · intro hns
    refine ⟨?_, errorMessageOf_ne_empty r hns, ?_⟩
    · intro j hj e he
      rw [applyApiResult_failure _ _ _ hns]
      exact getElem?_setAll_mem _ _ _ _ _ hj he
    · have hne := errorMessageOf_ne_empty r hns
      simp [translatedTruthy, hne]

/-- Closed instance realising the spec's scenario: a chunk of three
dialogue lines hit by a transport failure carries the identical non-empty
error sentinel on all three elements. -/
theorem c4_chunk_result_assignment_witness :
    (∀ j ∈ [0, 1, 2], ∀ e : Element,
        [mkEl Kind.dialogue "a" (some ""), mkEl Kind.dialogue "b" (some ""),
          mkEl Kind.dialogue "c" (some "")][j]? = some e →
        (applyApiResult
          [mkEl Kind.dialogue "a" (some ""), mkEl Kind.dialogue "b" (some ""),
            mkEl Kind.dialogue "c" (some "")]
          [0, 1, 2] (ApiResult.exn "ConnectionError"))[j]? =
          some { e with translated := some (errorMessageOf (ApiResult.exn "ConnectionError")) }) ∧
    errorMessageOf (ApiResult.exn "ConnectionError") ≠ "" ∧
    translatedTruthy (some (errorMessageOf (ApiResult.exn "ConnectionError"))) = true :=
  (c4_chunk_result_assignment
    [mkEl Kind.dialogue "a" (some ""), mkEl Kind.dialogue "b" (some ""),
      mkEl Kind.dialogue "c" (some "")]
    "" 0 [1, 2] (ApiResult.exn "ConnectionError") (by decide)).2.2
    (by intro s h; cases h)

/-! ## Unfolding equations of the translation loop -/

theorem translateLoopF_zero (oracle : Nat → ApiResult) (ps : List Element)
    (index calls : Nat) : translateLoopF oracle 0 ps index calls = (ps, []) := rfl

theorem translateLoopF_none (oracle : Nat → ApiResult) (fuel : Nat) (ps : List Element)
    (index calls : Nat) (hp : ps[index]? = none) :
    translateLoopF oracle (fuel + 1) ps index calls = (ps, []) := by
  simp only [translateLoopF, hp]

theorem translateLoopF_skip (oracle : Nat → ApiResult) (fuel : Nat) (ps : List Element)
    (index calls : Nat) (e : Element) (hp : ps[index]? = some e)
    (hn : needsTranslation e = false) :
    translateLoopF oracle (fuel + 1) ps index calls =
      translateLoopF oracle fuel ps (index + 1) calls := by
  simp only [translateLoopF, hp, hn]
  rfl

theorem translateLoopF_dialogue (oracle : Nat → ApiResult) (fuel : Nat) (ps : List Element)
    (index calls : Nat) (e : Element) (hp : ps[index]? = some e)
    (hn : needsTranslation e = true) (hk : e.kind = Kind.dialogue) :
    translateLoopF oracle (fuel + 1) ps index calls =
      ((translateLoopF oracle fuel
          (applyApiResult ps (chunkIndices ps index) (oracle calls))
          (index + (chunkIndices ps index).length) (calls + 1)).1,
        chunkIndices ps index ::
          (translateLoopF oracle fuel
            (applyApiResult ps (chunkIndices ps index) (oracle calls))
            (index + (chunkIndices ps index).length) (calls + 1)).2) := by
  simp only [translateLoopF, hp, hn, hk]
  rfl

theorem translateLoopF_stage (oracle : Nat → ApiResult) (fuel : Nat) (ps : List Element)
    (index calls : Nat) (e : Element) (hp : ps[index]? = some e)
    (hn : needsTranslation e = true) (hk : ¬(e.kind = Kind.dialogue)) :
    translateLoopF oracle (fuel + 1) ps index calls =
      ((translateLoopF oracle fuel
          (applyApiResult ps [index] (oracle calls)) (index + 1) (calls + 1)).1,
        [index] ::
          (translateLoopF oracle fuel
            (applyApiResult ps [index] (oracle calls)) (index + 1) (calls + 1)).2) := by
  simp only [translateLoopF, hp, hn, hk]
  rfl

/-! ## Chunk-gathering lemmas -/

/-- What a true continuation condition says about the element at `j`. -/
theorem chunkCond_elim (ps : List Element) (cs : Option String) (j : Nat)
    (h : chunkCond ps cs j = true) :
    ∃ e : Element, ps[j]? = some e ∧ e.kind = Kind.dialogue ∧
      translatedTruthy e.translated = false ∧ speakerBefore ps j = cs := by
  cases hp : ps[j]? with
  | none => rw [chunkCond, hp] at h; cases h
  | some e =>
      rw [chunkCond, hp] at h
      simp only [Bool.and_eq_true, decide_eq_true_eq, Bool.not_eq_true'] at h
      obtain ⟨⟨hk, hsp⟩, ht⟩ := h
      rw [hk] at hsp
      simp only [if_pos] at hsp
      exact ⟨e, rfl, hk, ht, hsp⟩

/-- The continuation condition holds at the start of a dialogue chunk. -/
theorem chunkCond_self (ps : List Element) (index : Nat) (e : Element)
    (hp : ps[index]? = some e) (hk : e.kind = Kind.dialogue)
    (hn : needsTranslation e = true) :
    chunkCond ps (speakerBefore ps index) index = true := by
  rw [needsTranslation, Bool.and_eq_true] at hn
  rw [chunkCond, hp]
  simp [hk, hn.2]

/-- Every position of the gathered run satisfies the continuation
condition. -/
theorem chunkExtent_mem (ps : List Element) (cs : Option String) :
    ∀ (fuel j k : Nat), k < chunkExtent ps cs j fuel →
      chunkCond ps cs (j + k) = true := by
  intro fuel
  induction fuel with
  | zero => intro j k h; rw [chunkExtent] at h; omega
  | succ m ih =>
      intro j k h
      rw [chunkExtent] at h
      by_cases hc : chunkCond ps cs j = true
      · rw [if_pos hc] at h
        cases k with
        | zero => exact hc
        | succ k2 =>
            have := ih (j + 1) k2 (by omega)
            have harr : j + 1 + k2 = j + (k2 + 1) := by omega
            rw [harr] at this
            exact this
      · rw [if_neg hc] at h
        omega

/-- The gathered run is non-empty when the condition holds at its start
and there is fuel. -/
theorem chunkExtent_pos (ps : List Element) (cs : Option String) (j fuel : Nat)
    (hc : chunkCond ps cs j = true) (hf : 0 < fuel) :
    1 ≤ chunkExtent ps cs j fuel := by
  cases fuel with
  | zero => omega
  | succ m => rw [chunkExtent, if_pos hc]; omega

/-- Membership in a dialogue chunk's index list. -/
theorem chunkIndices_mem (ps : List Element) (index i : Nat) :
    i ∈ chunkIndices ps index ↔
      ∃ k, k < chunkExtent ps (speakerBefore ps index) index ps.length ∧ i = index + k := by
  rw [chunkIndices]
  constructor
  · intro h
    obtain ⟨k, hk, he⟩ := List.mem_map.mp h
    exact ⟨k, List.mem_range.mp hk, he.symm⟩
  · intro ⟨k, hk, he⟩
    exact List.mem_map.mpr ⟨k, List.mem_range.mpr hk, he.symm⟩

/-- An element of a dialogue chunk is a dialogue element, untranslated,
with the chunk's derived speaker. -/
theorem chunkIndices_elim (ps : List Element) (index i : Nat)
    (h : i ∈ chunkIndices ps index) :
    ∃ e : Element, ps[i]? = some e ∧ e.kind = Kind.dialogue ∧
      translatedTruthy e.translated = false ∧
      speakerBefore ps i = speakerBefore ps index := by
  obtain ⟨k, hk, he⟩ := (chunkIndices_mem ps index i).mp h
  subst he
  exact chunkCond_elim ps _ _ (chunkExtent_mem ps _ ps.length index k hk)

/-- Chunk indices start at the cursor and stay below the cursor's next
position. -/
theorem chunkIndices_bounds (ps : List Element) (index i : Nat)
    (h : i ∈ chunkIndices ps index) :
    index ≤ i ∧ i < index + (chunkIndices ps index).length := by
  obtain ⟨k, hk, he⟩ := (chunkIndices_mem ps index i).mp h
  subst he
  rw [chunkIndices, List.length_map, List.length_range]
  omega

/-- Positions in the gathered interval are members of the chunk. -/
theorem chunkIndices_of_bounds (ps : List Element) (index i : Nat)
    (h1 : index ≤ i) (h2 : i < index + (chunkIndices ps index).length) :
    i ∈ chunkIndices ps index := by
  rw [chunkIndices, List.length_map, List.length_range] at h2
  exact (chunkIndices_mem ps index i).mpr ⟨i - index, by omega, by omega⟩

/-- The loop does not change the number of elements. -/
theorem translateLoopF_length (oracle : Nat → ApiResult) :
    ∀ (fuel : Nat) (ps : List Element) (index calls : Nat),
      (translateLoopF oracle fuel ps index calls).1.length = ps.length := by
  intro fuel
  induction fuel with
  | zero => intro ps index calls; rfl
  | succ m ih =>
      intro ps index calls
      cases hp : ps[index]? with
      | none => rw [translateLoopF_none oracle m ps index calls hp]
      | some e =>
          by_cases hn : needsTranslation e = true
          · by_cases hk : e.kind = Kind.dialogue
            · rw [translateLoopF_dialogue oracle m ps index calls e hp hn hk]
              rw [ih, applyApiResult_length]
            · rw [translateLoopF_stage oracle m ps index calls e hp hn hk]
              rw [ih, applyApiResult_length]
          · rw [translateLoopF_skip oracle m ps index calls e hp
              (Bool.not_eq_true _ ▸ Bool.of_not_eq_true hn)]
            exact ih ps (index + 1) calls

/-! ## Resumability lemmas (claim C8) -/

/-- An element whose `translated` field is truthy is never written and
never put in a chunk: the loop returns it unchanged. -/
theorem translateLoopF_preserves (oracle : Nat → ApiResult) :
    ∀ (fuel : Nat) (ps : List Element) (index calls j : Nat) (e : Element),
      ps[j]? = some e → translatedTruthy e.translated = true →
      (translateLoopF oracle fuel ps index calls).1[j]? = some e ∧
      ∀ c ∈ (translateLoopF oracle fuel ps index calls).2, j ∉ c := by
  intro fuel
  induction fuel with
  | zero =>
      intro ps index calls j e hj ht
      exact ⟨hj, by intro c hc; cases hc⟩
  | succ m ih =>
      intro ps index calls j e hj ht
      cases hp : ps[index]? with
      | none =>
          rw [translateLoopF_none oracle m ps index calls hp]
          exact ⟨hj, by intro c hc; cases hc⟩
      | some ei =>
          by_cases hn : needsTranslation ei = true
          · by_cases hk : ei.kind = Kind.dialogue
            · rw [translateLoopF_dialogue oracle m ps index calls ei hp hn hk]
              have hjni : j ∉ chunkIndices ps index := by
                intro hmem
                obtain ⟨e2, he2, _, ht2, _⟩ := chunkIndices_elim ps index j hmem
                rw [hj] at he2
                cases he2
                rw [ht] at ht2
                cases ht2
              have hps2 : (applyApiResult ps (chunkIndices ps index) (oracle calls))[j]?
                  = some e := by
                rw [getElem?_applyApiResult_not_mem _ _ _ _ hjni, hj]
              obtain ⟨h1, h2⟩ := ih _ _ (calls + 1) j e hps2 ht
              refine ⟨h1, ?_⟩
              intro c hc
              rcases List.mem_cons.mp hc with hc | hc
              · rw [hc]; exact hjni
              · exact h2 c hc
            · rw [translateLoopF_stage oracle m ps index calls ei hp hn hk]
              have hjni : j ∉ ([index] : List Nat) := by
                intro hmem
                have hji : j = index := by
                  rcases List.mem_cons.mp hmem with h | h
                  · exact h
                  · cases h
                rw [hji, hp] at hj
                cases hj
                rw [needsTranslation, Bool.and_eq_true] at hn
                rw [ht] at hn
                simp at hn
              have hps2 : (applyApiResult ps [index] (oracle calls))[j]? = some e := by
                rw [getElem?_applyApiResult_not_mem _ _ _ _ hjni, hj]
              obtain ⟨h1, h2⟩ := ih _ _ (calls + 1) j e hps2 ht
              refine ⟨h1, ?_⟩
              intro c hc
              rcases List.mem_cons.mp hc with hc | hc
              · rw [hc]; exact hjni
              · exact h2 c hc
          · rw [translateLoopF_skip oracle m ps index calls ei hp
              (Bool.not_eq_true _ ▸ Bool.of_not_eq_true hn)]
            exact ih ps (index + 1) calls j e hj ht

/-- Pointwise monotonicity: an element that still needs translation after
the run already needed it before. -/
theorem translateLoopF_needs (oracle : Nat → ApiResult) :
    ∀ (fuel : Nat) (ps : List Element) (index calls j : Nat),
      needsAt (translateLoopF oracle fuel ps index calls).1 j = true →
      needsAt ps j = true := by
  intro fuel
  induction fuel with
  | zero => intro ps index calls j h; exact h
  | succ m ih =>
      intro ps index calls j h
      cases hp : ps[index]? with
      | none => rw [translateLoopF_none oracle m ps index calls hp] at h; exact h
      | some ei =>
          by_cases hn : needsTranslation ei = true
          · by_cases hk : ei.kind = Kind.dialogue
            · rw [translateLoopF_dialogue oracle m ps index calls ei hp hn hk] at h
              have h2 := ih _ _ (calls + 1) j h
              by_cases hj : j ∈ chunkIndices ps index
              · obtain ⟨e2, he2, hk2, ht2, _⟩ := chunkIndices_elim ps index j hj
                rw [needsAt, he2]
                show needsTranslation e2 = true
                rw [needsTranslation, hk2]
                simp [ht2]
              · rw [needsAt, getElem?_applyApiResult_not_mem _ _ _ _ hj] at h2
                rw [needsAt]
                exact h2
            · rw [translateLoopF_stage oracle m ps index calls ei hp hn hk] at h
              have h2 := ih _ _ (calls + 1) j h
              by_cases hj : j ∈ ([index] : List Nat)
              · have hji : j = index := by
                  rcases List.mem_cons.mp hj with hh | hh
                  · exact hh
                  · cases hh
                rw [hji, needsAt, hp]
                exact hn
              · rw [needsAt, getElem?_applyApiResult_not_mem _ _ _ _ hj] at h2
                rw [needsAt]
                exact h2
          · rw [translateLoopF_skip oracle m ps index calls ei hp
              (Bool.not_eq_true _ ▸ Bool.of_not_eq_true hn)] at h
            exact ih ps (index + 1) calls j h

/-- C8: resumability of the translation driver.  For any element sequence
(such as one restored unchanged from a checkpoint) and any API oracle,
every element whose `translated` field is already truthy is skipped — it
appears in no submitted chunk and its value is returned unchanged — and
the number of elements still needing translation never increases. -/
theorem c8_resumability (oracle : Nat → ApiResult) (ps : List Element) :
    (∀ (j : Nat) (e : Element), ps[j]? = some e → translatedTruthy e.translated = true →
        (runTranslate oracle ps).1[j]? = some e ∧
        ∀ c ∈ (runTranslate oracle ps).2, j ∉ c) ∧
    needingCount (runTranslate oracle ps).1 ≤ needingCount ps := by
  constructor
  · intro j e hj ht
    exact translateLoopF_preserves oracle ps.length ps 0 0 j e hj ht
  · have hlen : (runTranslate oracle ps).1.length = ps.length :=
      translateLoopF_length oracle ps.length ps 0 0
    rw [needingCount, needingCount, hlen]
    apply Finset.card_le_card
    intro x hx
    rw [Finset.mem_filter] at hx ⊢
    exact ⟨hx.1, translateLoopF_needs oracle ps.length ps 0 0 x hx.2⟩

/-- Closed instance of the resumability theorem on a two-element list with
one element already translated. -/
theorem c8_resumability_witness :
    (∀ (j : Nat) (e : Element),
        [mkEl Kind.dialogue "a" (some "done"), mkEl Kind.dialogue "b" (some "")][j]? = some e →
        translatedTruthy e.translated = true →
        (runTranslate (fun _ => ApiResult.success "yo")
          [mkEl Kind.dialogue "a" (some "done"), mkEl Kind.dialogue "b" (some "")]).1[j]? =
          some e ∧
        ∀ c ∈ (runTranslate (fun _ => ApiResult.success "yo")
          [mkEl Kind.dialogue "a" (some "done"), mkEl Kind.dialogue "b" (some "")]).2, j ∉ c) ∧
    needingCount (runTranslate (fun _ => ApiResult.success "yo")
      [mkEl Kind.dialogue "a" (some "done"), mkEl Kind.dialogue "b" (some "")]).1 ≤
      needingCount [mkEl Kind.dialogue "a" (some "done"), mkEl Kind.dialogue "b" (some "")] :=
  c8_resumability (fun _ => ApiResult.success "yo")
    [mkEl Kind.dialogue "a" (some "done"), mkEl Kind.dialogue "b" (some "")]

/-! ## Partition lemma for the chunking loop (claim C1) -/

/-- Invariant of the translation loop from an arbitrary cursor: provided
every element at or after the cursor is still untranslated, the chunks
submitted by the rest of the run (i) stay within `[index, ps.length)`,
(ii) cover exactly the dialogue / stage-direction positions there,
(iii) are strictly ordered (hence disjoint), (iv) are all-dialogue runs or
single stage directions, and (v) are speaker-homogeneous. -/
theorem translateLoopF_partition (oracle : Nat → ApiResult) :
    ∀ (fuel : Nat) (ps : List Element) (index calls : Nat),
      ps.length ≤ index + fuel →
      (∀ (j : Nat) (e : Element), index ≤ j → ps[j]? = some e →
          translatedTruthy e.translated = false) →
      (∀ c ∈ (translateLoopF oracle fuel ps index calls).2, ∀ i ∈ c,
          index ≤ i ∧ i < ps.length) ∧
      (∀ (i : Nat) (e : Element), index ≤ i → ps[i]? = some e →
          ((e.kind = Kind.dialogue ∨ e.kind = Kind.stage_direction) ↔
            ∃ c ∈ (translateLoopF oracle fuel ps index calls).2, i ∈ c)) ∧
      List.Pairwise (fun c d => ∀ i ∈ c, ∀ j ∈ d, i < j)
        (translateLoopF oracle fuel ps index calls).2 ∧
      (∀ c ∈ (translateLoopF oracle fuel ps index calls).2,
          (∀ i ∈ c, ∃ e : Element, ps[i]? = some e ∧ e.kind = Kind.dialogue) ∨
          (∃ (i : Nat) (e : Element), c = [i] ∧ ps[i]? = some e ∧
            e.kind = Kind.stage_direction)) ∧
      (∀ c ∈ (translateLoopF oracle fuel ps index calls).2, ∀ i ∈ c, ∀ j ∈ c,
          speakerBefore ps i = speakerBefore ps j) := by
  intro fuel
  induction fuel with
  | zero =>
      intro ps index calls hfuel H
      refine ⟨?_, ?_, List.Pairwise.nil, ?_, ?_⟩
      · intro c hc; cases hc
      · intro i e hi he
        have hlt := (List.getElem?_eq_some.mp he).1
        exfalso; omega
      · intro c hc; cases hc
      · intro c hc; cases hc
  | succ m ih =>
      intro ps index calls hfuel H
      cases hp : ps[index]? with
      | none =>
          have hlen : ps.length ≤ index := List.getElem?_eq_none_iff.mp hp
          rw [translateLoopF_none oracle m ps index calls hp]
          refine ⟨?_, ?_, List.Pairwise.nil, ?_, ?_⟩
          · intro c hc; cases hc
          · intro i e hi he
            have hlt := (List.getElem?_eq_some.mp he).1
            exfalso; omega
          · intro c hc; cases hc
          · intro c hc; cases hc
      | some ei =>
          by_cases hn : needsTranslation ei = true
          · by_cases hk : ei.kind = Kind.dialogue
            · -- dialogue chunk at the cursor
              rw [translateLoopF_dialogue oracle m ps index calls ei hp hn hk]
              have hpos : 1 ≤ (chunkIndices ps index).length := by
                rw [chunkIndices, List.length_map, List.length_range]
                refine chunkExtent_pos ps _ index ps.length
                  (chunkCond_self ps index ei hp hk hn) ?_
                have := (List.getElem?_eq_some.mp hp).1
                omega
              have hlen2 : (applyApiResult ps (chunkIndices ps index) (oracle calls)).length
                  = ps.length := applyApiResult_length _ _ _
              have hf2 : ∀ j : Nat, j ∉ chunkIndices ps index →
                  (applyApiResult ps (chunkIndices ps index) (oracle calls))[j]? = ps[j]? :=
                fun j hj => getElem?_applyApiResult_not_mem _ _ _ _ hj
              have hnotin : ∀ j : Nat, index + (chunkIndices ps index).length ≤ j →
                  j ∉ chunkIndices ps index := by
                intro j hj hmem
                have := (chunkIndices_bounds ps index j hmem).2
                omega
              have H2 : ∀ (j : Nat) (e2 : Element),
                  index + (chunkIndices ps index).length ≤ j →
                  (applyApiResult ps (chunkIndices ps index) (oracle calls))[j]? = some e2 →
                  translatedTruthy e2.translated = false := by
                intro j e2 hj he2
                rw [hf2 j (hnotin j hj)] at he2
                exact H j e2 (by omega) he2
              have hfuel2 : (applyApiResult ps (chunkIndices ps index) (oracle calls)).length
                  ≤ (index + (chunkIndices ps index).length) + m := by
                rw [hlen2]; omega
              obtain ⟨A, B, C, D, E⟩ := ih _ (index + (chunkIndices ps index).length)
                (calls + 1) hfuel2 H2
              have hspeq : ∀ i : Nat,
                  speakerBefore (applyApiResult ps (chunkIndices ps index) (oracle calls)) i
                    = speakerBefore ps i :=
                speakerBefore_congr _ _ (fun j => getElem?_applyApiResult_shape _ _ _ j)
              refine ⟨?_, ?_, ?_, ?_, ?_⟩
              · intro c hc i hi
                rcases List.mem_cons.mp hc with rfl | hc2
                · obtain ⟨e2, he2, _, _, _⟩ := chunkIndices_elim ps index i hi
                  exact ⟨(chunkIndices_bounds ps index i hi).1,
                    (List.getElem?_eq_some.mp he2).1⟩
                · obtain ⟨h1, h2⟩ := A c hc2 i hi
                  rw [hlen2] at h2
                  exact ⟨by omega, h2⟩
              · intro i e hi he
                by_cases hile : i < index + (chunkIndices ps index).length
                · have him : i ∈ chunkIndices ps index :=
                    chunkIndices_of_bounds ps index i hi hile
                  obtain ⟨e2, he2, hk2, _, _⟩ := chunkIndices_elim ps index i him
                  have hee : e = e2 := Option.some.inj (he.symm.trans he2)
                  constructor
                  · intro _
                    exact ⟨chunkIndices ps index, List.mem_cons_self _ _, him⟩
                  · intro _
                    left; rw [hee]; exact hk2
                · have hge : index + (chunkIndices ps index).length ≤ i := by omega
                  have hnm : i ∉ chunkIndices ps index := hnotin i hge
                  have he2 : (applyApiResult ps (chunkIndices ps index) (oracle calls))[i]?
                      = some e := by rw [hf2 i hnm]; exact he
                  have hiff := B i e hge he2
                  constructor
                  · intro hkind
                    obtain ⟨c, hc, hic⟩ := hiff.mp hkind
                    exact ⟨c, List.mem_cons_of_mem _ hc, hic⟩
                  · intro hex
                    obtain ⟨c, hc, hic⟩ := hex
                    rcases List.mem_cons.mp hc with rfl | hc2
                    · exact absurd hic hnm
                    · exact hiff.mpr ⟨c, hc2, hic⟩
              · refine List.Pairwise.cons ?_ C
                intro d hd i hi j hj
                have hib := (chunkIndices_bounds ps index i hi).2
                have hjb := (A d hd j hj).1
                omega
              · intro c hc
                rcases List.mem_cons.mp hc with rfl | hc2
                · left
                  intro i hi
                  obtain ⟨e2, he2, hk2, _, _⟩ := chunkIndices_elim ps index i hi
                  exact ⟨e2, he2, hk2⟩
                · rcases D c hc2 with hdia | hsingle
                  · left
                    intro i hi
                    obtain ⟨e2, he2, hk2⟩ := hdia i hi
                    have hnm : i ∉ chunkIndices ps index := hnotin i ((A c hc2 i hi).1)
                    rw [hf2 i hnm] at he2
                    exact ⟨e2, he2, hk2⟩
                  · obtain ⟨i, e2, hci, hei, hke⟩ := hsingle
                    right
                    have hii : i ∈ c := by rw [hci]; exact List.mem_cons_self _ _
                    have hnm : i ∉ chunkIndices ps index := hnotin i ((A c hc2 i hii).1)
                    rw [hf2 i hnm] at hei
                    exact ⟨i, e2, hci, hei, hke⟩
              · intro c hc i hi j hj
                rcases List.mem_cons.mp hc with rfl | hc2
                · obtain ⟨_, _, _, _, hsi⟩ := chunkIndices_elim ps index i hi
                  obtain ⟨_, _, _, _, hsj⟩ := chunkIndices_elim ps index j hj
                  rw [hsi, hsj]
                · have hE := E c hc2 i hi j hj
                  rw [hspeq i, hspeq j] at hE
                  exact hE
            · -- stage direction at the cursor
              have hks : ei.kind = Kind.stage_direction := by
                rw [needsTranslation, Bool.and_eq_true, Bool.or_eq_true] at hn
                rcases hn.1 with h | h
                · exact absurd (of_decide_eq_true h) hk
                · exact of_decide_eq_true h
              rw [translateLoopF_stage oracle m ps index calls ei hp hn hk]
              have hlen2 : (applyApiResult ps [index] (oracle calls)).length = ps.length :=
                applyApiResult_length _ _ _
              have hf2 : ∀ j : Nat, j ≠ index →
                  (applyApiResult ps [index] (oracle calls))[j]? = ps[j]? := by
                intro j hj
                refine getElem?_applyApiResult_not_mem _ _ _ _ ?_
                intro hmem
                exact hj (List.mem_singleton.mp hmem)
              have H2 : ∀ (j : Nat) (e2 : Element), index + 1 ≤ j →
                  (applyApiResult ps [index] (oracle calls))[j]? = some e2 →
                  translatedTruthy e2.translated = false := by
                intro j e2 hj he2
                rw [hf2 j (by omega)] at he2
                exact H j e2 (by omega) he2
              have hfuel2 : (applyApiResult ps [index] (oracle calls)).length
                  ≤ (index + 1) + m := by rw [hlen2]; omega
              obtain ⟨A, B, C, D, E⟩ := ih _ (index + 1) (calls + 1) hfuel2 H2
              have hspeq : ∀ i : Nat,
                  speakerBefore (applyApiResult ps [index] (oracle calls)) i
                    = speakerBefore ps i :=
                speakerBefore_congr _ _ (fun j => getElem?_applyApiResult_shape _ _ _ j)
              refine ⟨?_, ?_, ?_, ?_, ?_⟩
              · intro c hc i hi
                rcases List.mem_cons.mp hc with rfl | hc2
                · have hii : i = index := List.mem_singleton.mp hi
                  subst hii
                  exact ⟨le_rfl, (List.getElem?_eq_some.mp hp).1⟩
                · obtain ⟨h1, h2⟩ := A c hc2 i hi
                  rw [hlen2] at h2
                  exact ⟨by omega, h2⟩
              · intro i e hi he
                by_cases hii : i = index
                · subst hii
                  have hee : e = ei := Option.some.inj (he.symm.trans hp)
                  constructor
                  · intro _
                    exact ⟨[i], List.mem_cons_self _ _, List.mem_cons_self _ _⟩
                  · intro _
                    right; rw [hee]; exact hks
                · have hge : index + 1 ≤ i := by omega
                  have he2 : (applyApiResult ps [index] (oracle calls))[i]? = some e := by
                    rw [hf2 i hii]; exact he
                  have hiff := B i e hge he2
                  constructor
                  · intro hkind
                    obtain ⟨c, hc, hic⟩ := hiff.mp hkind
                    exact ⟨c, List.mem_cons_of_mem _ hc, hic⟩
                  · intro hex
                    obtain ⟨c, hc, hic⟩ := hex
                    rcases List.mem_cons.mp hc with rfl | hc2
                    · exact absurd (List.mem_singleton.mp hic) hii
                    · exact hiff.mpr ⟨c, hc2, hic⟩
              · refine List.Pairwise.cons ?_ C
                intro d hd i hi j hj
                have hii : i = index := List.mem_singleton.mp hi
                have hjb := (A d hd j hj).1
                omega
              · intro c hc
                rcases List.mem_cons.mp hc with rfl | hc2
                · right
                  exact ⟨index, ei, rfl, hp, hks⟩
                · rcases D c hc2 with hdia | hsingle
                  · left
                    intro i hi
                    obtain ⟨e2, he2, hk2⟩ := hdia i hi
                    have hne : i ≠ index := by
                      have := (A c hc2 i hi).1; omega
                    rw [hf2 i hne] at he2
                    exact ⟨e2, he2, hk2⟩
                  · obtain ⟨i, e2, hci, hei, hke⟩ := hsingle
                    right
                    have hii : i ∈ c := by rw [hci]; exact List.mem_cons_self _ _
                    have hne : i ≠ index := by
                      have := (A c hc2 i hii).1; omega
                    rw [hf2 i hne] at hei
                    exact ⟨i, e2, hci, hei, hke⟩
              · intro c hc i hi j hj
                rcases List.mem_cons.mp hc with rfl | hc2
                · rw [List.mem_singleton.mp hi, List.mem_singleton.mp hj]
                · have hE := E c hc2 i hi j hj
                  rw [hspeq i, hspeq j] at hE
                  exact hE
          · -- element needs no translation: skip
            rw [translateLoopF_skip oracle m ps index calls ei hp
              (Bool.not_eq_true _ ▸ Bool.of_not_eq_true hn)]
            have H2 : ∀ (j : Nat) (e2 : Element), index + 1 ≤ j → ps[j]? = some e2 →
                translatedTruthy e2.translated = false :=
              fun j e2 hj he2 => H j e2 (by omega) he2
            have hfuel2 : ps.length ≤ (index + 1) + m := by omega
            obtain ⟨A, B, C, D, E⟩ := ih ps (index + 1) calls hfuel2 H2
            refine ⟨?_, ?_, C, D, E⟩
            · intro c hc i hi
              obtain ⟨h1, h2⟩ := A c hc i hi
              exact ⟨by omega, h2⟩
            · intro i e hi he
              by_cases hii : i = index
              · subst hii
                have hee : e = ei := Option.some.inj (he.symm.trans hp)
                have hkind : ¬(e.kind = Kind.dialogue ∨ e.kind = Kind.stage_direction) := by
                  intro hkind
                  apply hn
                  rw [needsTranslation, Bool.and_eq_true, Bool.or_eq_true]
                  have ht := H i ei hi hp
                  refine ⟨?_, by simp [hee, ht]⟩
                  rcases hkind with h | h
                  · left; rw [hee] at h; exact decide_eq_true h
                  · right; rw [hee] at h; exact decide_eq_true h
                constructor
                · intro h; exact absurd h hkind
                · intro hex
                  obtain ⟨c, hc, hic⟩ := hex
                  have := (A c hc i hic).1
                  exfalso; omega
              · have hge : index + 1 ≤ i := by omega
                exact B i e hge he

/-- C1: chunk consumption is a complete partition.  For any element
sequence with no pre-existing translation, the chunks submitted by a full
pass of the translation driver cover exactly the dialogue and
stage-direction positions — every such index is in a chunk, no index is in
two chunks (the chunks are strictly ordered), no chunk mixes a
non-dialogue element with dialogue, every chunk is speaker-homogeneous
under the derived backward-scan speaker relation, and every chunk element
was untranslated. -/
theorem c1_chunk_partition (oracle : Nat → ApiResult) (ps : List Element)
    (H : ∀ e ∈ ps, translatedTruthy e.translated = false) :
    (∀ (i : Nat) (e : Element), ps[i]? = some e →
        ((e.kind = Kind.dialogue ∨ e.kind = Kind.stage_direction) ↔
          ∃ c ∈ (runTranslate oracle ps).2, i ∈ c)) ∧
    List.Pairwise (fun c d => ∀ i ∈ c, ∀ j ∈ d, i < j) (runTranslate oracle ps).2 ∧
    (∀ c ∈ (runTranslate oracle ps).2, ∀ i ∈ c, i < ps.length ∧
        ∃ e : Element, ps[i]? = some e ∧ translatedTruthy e.translated = false) ∧
    (∀ c ∈ (runTranslate oracle ps).2,
        (∀ i ∈ c, ∃ e : Element, ps[i]? = some e ∧ e.kind = Kind.dialogue) ∨
        (∃ (i : Nat) (e : Element), c = [i] ∧ ps[i]? = some e ∧
          e.kind = Kind.stage_direction)) ∧
    (∀ c ∈ (runTranslate oracle ps).2, ∀ i ∈ c, ∀ j ∈ c,
        speakerBefore ps i = speakerBefore ps j) := by
  have Hj : ∀ (j : Nat) (e : Element), 0 ≤ j → ps[j]? = some e →
      translatedTruthy e.translated = false :=
    fun j e _ he => H e (List.getElem?_mem he)
  obtain ⟨A, B, C, D, E⟩ :=
    translateLoopF_partition oracle ps.length ps 0 0 (by omega) Hj
  refine ⟨?_, C, ?_, D, E⟩
  · intro i e he
    exact B i e (Nat.zero_le i) he
  · intro c hc i hi
    have h2 := (A c hc i hi).2
    refine ⟨h2, ?_⟩
    cases hpe : ps[i]? with
    | none =>
        have := List.getElem?_eq_none_iff.mp hpe
        exfalso; omega
    | some e => exact ⟨e, rfl, Hj i e (Nat.zero_le i) hpe⟩

/-- Closed instance of the partition theorem on a pristine three-element
sequence. -/
theorem c1_chunk_partition_witness :
    (∀ (i : Nat) (e : Element),
        [mkEl Kind.speaker "ROMEO" none, mkEl Kind.dialogue "a" (some ""),
          mkEl Kind.dialogue "b" (some "")][i]? = some e →
        ((e.kind = Kind.dialogue ∨ e.kind = Kind.stage_direction) ↔
          ∃ c ∈ (runTranslate (fun _ => ApiResult.success "yo")
            [mkEl Kind.speaker "ROMEO" none, mkEl Kind.dialogue "a" (some ""),
              mkEl Kind.dialogue "b" (some "")]).2, i ∈ c)) ∧
    List.Pairwise (fun c d => ∀ i ∈ c, ∀ j ∈ d, i < j)
      (runTranslate (fun _ => ApiResult.success "yo")
        [mkEl Kind.speaker "ROMEO" none, mkEl Kind.dialogue "a" (some ""),
          mkEl Kind.dialogue "b" (some "")]).2 ∧
    (∀ c ∈ (runTranslate (fun _ => ApiResult.success "yo")
        [mkEl Kind.speaker "ROMEO" none, mkEl Kind.dialogue "a" (some ""),
          mkEl Kind.dialogue "b" (some "")]).2, ∀ i ∈ c,
        i < ([mkEl Kind.speaker "ROMEO" none, mkEl Kind.dialogue "a" (some ""),
          mkEl Kind.dialogue "b" (some "")] : List Element).length ∧
        ∃ e : Element,
          [mkEl Kind.speaker "ROMEO" none, mkEl Kind.dialogue "a" (some ""),
            mkEl Kind.dialogue "b" (some "")][i]? = some e ∧
          translatedTruthy e.translated = false) ∧
    (∀ c ∈ (runTranslate (fun _ => ApiResult.success "yo")
        [mkEl Kind.speaker "ROMEO" none, mkEl Kind.dialogue "a" (some ""),
          mkEl Kind.dialogue "b" (some "")]).2,
        (∀ i ∈ c, ∃ e : Element,
            [mkEl Kind.speaker "ROMEO" none, mkEl Kind.dialogue "a" (some ""),
              mkEl Kind.dialogue "b" (some "")][i]? = some e ∧
            e.kind = Kind.dialogue) ∨
        (∃ (i : Nat) (e : Element), c = [i] ∧
            [mkEl Kind.speaker "ROMEO" none, mkEl Kind.dialogue "a" (some ""),
              mkEl Kind.dialogue "b" (some "")][i]? = some e ∧
            e.kind = Kind.stage_direction)) ∧
    (∀ c ∈ (runTranslate (fun _ => ApiResult.success "yo")
        [mkEl Kind.speaker "ROMEO" none, mkEl Kind.dialogue "a" (some ""),
          mkEl Kind.dialogue "b" (some "")]).2, ∀ i ∈ c, ∀ j ∈ c,
        speakerBefore [mkEl Kind.speaker "ROMEO" none, mkEl Kind.dialogue "a" (some ""),
          mkEl Kind.dialogue "b" (some "")] i =
        speakerBefore [mkEl Kind.speaker "ROMEO" none, mkEl Kind.dialogue "a" (some ""),
          mkEl Kind.dialogue "b" (some "")] j) :=
  c1_chunk_partition (fun _ => ApiResult.success "yo")
    [mkEl Kind.speaker "ROMEO" none, mkEl Kind.dialogue "a" (some ""),
      mkEl Kind.dialogue "b" (some "")] (by decide)

theorem CtxOK_none (es : List Element) : CtxOK es none := by
  intro nm h
  cases h

theorem GoodList_nil : GoodList [] := by
  intro i e h
  cases i <;> cases h

theorem GoodList_append_not_dialogue (acc : List Element) (e : Element)
    (hg : GoodList acc) (hk : ¬(e.kind = Kind.dialogue)) : GoodList (acc ++ [e]) := by
  intro i x hx hkx
  by_cases hi : i < acc.length
  · rw [List.getElem?_append_left hi] at hx
    obtain ⟨j, e2, hj, he2, hk2, hw⟩ := hg i x hx hkx
    refine ⟨j, e2, hj, ?_, hk2, ?_⟩
    · rw [List.getElem?_append_left (by omega)]; exact he2
    · intro k y hk1 hk2y hky
      rw [List.getElem?_append_left (by omega)] at hky
      exact hw k y hk1 hk2y hky
  · by_cases hie : i = acc.length
    · subst hie
      rw [List.getElem?_concat_length] at hx
      cases hx
      exact absurd hkx hk
    · have : (acc ++ [e]).length ≤ i := by
        rw [List.length_append]
        simp only [List.length_cons, List.length_nil]
        omega
      rw [List.getElem?_eq_none this] at hx
      cases hx

theorem CtxOK_append_noBarrier (acc : List Element) (cs : Option String) (e : Element)
    (hc : CtxOK acc cs) (hb : noBarrier e) : CtxOK (acc ++ [e]) cs := by
  intro nm hnm
  obtain ⟨j, e2, hj, he2, hk2, hw⟩ := hc nm hnm
  refine ⟨j, e2, ?_, ?_, hk2, ?_⟩
  · rw [List.length_append]; omega
  · rw [List.getElem?_append_left (by omega)]; exact he2
  · intro k y hk1 hk2y hky
    by_cases hke : k < acc.length
    · rw [List.getElem?_append_left hke] at hky
      exact hw k y hk1 hke hky
    · have hkeq : k = acc.length := by
        rw [List.length_append] at hk2y
        simp only [List.length_cons, List.length_nil] at hk2y
        omega
      subst hkeq
      rw [List.getElem?_concat_length] at hky
      cases hky
      exact hb

theorem CtxOK_append_speaker (acc : List Element) (cs2 : Option String) (e : Element)
    (hk : e.kind = Kind.speaker) : CtxOK (acc ++ [e]) cs2 := by
  intro nm _
  refine ⟨acc.length, e, ?_, List.getElem?_concat_length acc e, hk, ?_⟩
  · rw [List.length_append]
    simp only [List.length_cons, List.length_nil]
    omega
  · intro k y hk1 hk2y _
    rw [List.length_append] at hk2y
    simp only [List.length_cons, List.length_nil] at hk2y
    omega

theorem GoodList_append_dialogue (acc : List Element) (cs : Option String) (e : Element)
    (hc : CtxOK acc cs) (hg : GoodList acc) (hcs : csTruthy cs = true) :
    GoodList (acc ++ [e]) := by
  intro i x hx hkx
  by_cases hi : i < acc.length
  · rw [List.getElem?_append_left hi] at hx
    obtain ⟨j, e2, hj, he2, hk2, hw⟩ := hg i x hx hkx
    refine ⟨j, e2, hj, ?_, hk2, ?_⟩
    · rw [List.getElem?_append_left (by omega)]; exact he2
    · intro k y hk1 hk2y hky
      rw [List.getElem?_append_left (by omega)] at hky
      exact hw k y hk1 hk2y hky
  · by_cases hie : i = acc.length
    · subst hie
      obtain ⟨nm, hnm⟩ : ∃ nm : String, cs = some nm := by
        cases hcase : cs with
        | none => rw [hcase] at hcs; cases hcs
        | some s => exact ⟨s, rfl⟩
      obtain ⟨j, e2, hj, he2, hk2, hw⟩ := hc nm hnm
      refine ⟨j, e2, hj, ?_, hk2, ?_⟩
      · rw [List.getElem?_append_left (by omega)]; exact he2
      · intro k y hk1 hk2y hky
        rw [List.getElem?_append_left (by omega)] at hky
        exact hw k y hk1 (by omega) hky
    · have : (acc ++ [e]).length ≤ i := by
        rw [List.length_append]
        simp only [List.length_cons, List.length_nil]
        omega
      rw [List.getElem?_eq_none this] at hx
      cases hx

/-- The eight possible outcomes of one classification step. -/
theorem parseStep_shape (cs : Option String) (line : String) :
    parseStep cs line = ([], cs) ∨
    (∃ s : String, parseStep cs line = ([mkEl Kind.heading s none], none)) ∨
    (∃ s : String, parseStep cs line = ([mkEl Kind.scene_marker s none], none)) ∨
    (∃ s : String, parseStep cs line = ([mkEl Kind.stage_direction s (some "")], cs)) ∨
    (∃ nm : String, parseStep cs line = ([mkEl Kind.speaker nm none], some nm)) ∨
    (csTruthy cs = true ∧
      ∃ s : String, parseStep cs line = ([mkEl Kind.dialogue s (some "")], cs)) ∨
    (∃ s : String, parseStep cs line = ([mkEl Kind.unknown s none], cs)) := by
  simp only [parseStep]
  by_cases h0 : pyStrip line = ""
  · rw [if_pos h0]; exact Or.inl rfl
  rw [if_neg h0]
  by_cases h1 : pyStrip line = "THE PROLOGUE"
  · rw [if_pos h1]; exact Or.inr (Or.inl ⟨_, rfl⟩)
  rw [if_neg h1]
  by_cases h2 : (pyStartsWith (pyStrip line) "ACT "
      || pyStartsWith (pyStrip line) "SCENE ") = true
  · rw [if_pos h2]; exact Or.inr (Or.inr (Or.inl ⟨_, rfl⟩))
  rw [if_neg h2]
  by_cases h3 : (pyIsUpper (pyStrip line) && (speakerMatch (pyStrip line)).isNone) = true
  · rw [if_pos h3]; exact Or.inr (Or.inl ⟨_, rfl⟩)
  rw [if_neg h3]
  by_cases h4 : (isBracketed (pyStrip line)
      || (startsWithKeyword (pyStrip line) && (speakerMatch (pyStrip line)).isNone)) = true
  · rw [if_pos h4]; exact Or.inr (Or.inr (Or.inr (Or.inl ⟨_, rfl⟩)))
  rw [if_neg h4]
  rcases hm : speakerMatch (pyStrip line) with _ | nm
  · simp only [hm]
    by_cases hcs : csTruthy cs = true
    · rw [if_pos hcs]
      exact Or.inr (Or.inr (Or.inr (Or.inr (Or.inr (Or.inl ⟨hcs, _, rfl⟩)))))
    · rw [if_neg hcs]
      exact Or.inr (Or.inr (Or.inr (Or.inr (Or.inr (Or.inr ⟨_, rfl⟩)))))
  · simp only [hm]
    by_cases heq : some nm = cs
    · rw [if_pos heq]
      exact Or.inl rfl
    · rw [if_neg heq]
      exact Or.inr (Or.inr (Or.inr (Or.inr (Or.inl ⟨nm, rfl⟩))))

/-- The scan preserves the invariant: dialogue elements always follow a
speaker through a barrier-free window. -/
theorem parseLinesAux_good :
    ∀ (ls : List String) (cs : Option String) (acc : List Element),
      CtxOK acc cs → GoodList acc → GoodList (acc ++ parseLinesAux cs ls) := by
  intro ls
  induction ls with
  | nil =>
      intro cs acc _ hg
      rw [parseLinesAux, List.append_nil]
      exact hg
  | cons l rest ih =>
      intro cs acc hc hg
      rw [parseLinesAux, ← List.append_assoc]
      rcases parseStep_shape cs l with h | ⟨s, h⟩ | ⟨s, h⟩ | ⟨s, h⟩ | ⟨nm, h⟩
        | ⟨hcs, s, h⟩ | ⟨s, h⟩ <;> rw [h]
      · rw [List.append_nil]
        exact ih cs acc hc hg
      · exact ih none (acc ++ [mkEl Kind.heading s none]) (CtxOK_none _)
          (GoodList_append_not_dialogue acc _ hg (by intro hh; cases hh))
      · exact ih none (acc ++ [mkEl Kind.scene_marker s none]) (CtxOK_none _)
          (GoodList_append_not_dialogue acc _ hg (by intro hh; cases hh))
      · exact ih cs (acc ++ [mkEl Kind.stage_direction s (some "")])
          (CtxOK_append_noBarrier acc cs _ hc ⟨(fun hh => nomatch hh), (fun hh => nomatch hh)⟩)
          (GoodList_append_not_dialogue acc _ hg (by intro hh; cases hh))
      · exact ih (some nm) (acc ++ [mkEl Kind.speaker nm none])
          (CtxOK_append_speaker acc _ _ rfl)
          (GoodList_append_not_dialogue acc _ hg (by intro hh; cases hh))
      · exact ih cs (acc ++ [mkEl Kind.dialogue s (some "")])
          (CtxOK_append_noBarrier acc cs _ hc ⟨(fun hh => nomatch hh), (fun hh => nomatch hh)⟩)
          (GoodList_append_dialogue acc cs _ hc hg hcs)
      · exact ih cs (acc ++ [mkEl Kind.unknown s none])
          (CtxOK_append_noBarrier acc cs _ hc ⟨(fun hh => nomatch hh), (fun hh => nomatch hh)⟩)
          (GoodList_append_not_dialogue acc _ hg (by intro hh; cases hh))

/-- The backward scan of `main` finds a speaker whenever one exists
before the position. -/
theorem speakerBefore_isSome_of_exists (es : List Element) :
    ∀ (i : Nat), (∃ (j : Nat) (e2 : Element), j < i ∧ es[j]? = some e2 ∧
      e2.kind = Kind.speaker) → speakerBefore es i ≠ none := by
  intro i
  induction i with
  | zero =>
      intro ⟨j, e2, hj, _, _⟩
      omega
  | succ m ih =>
      intro ⟨j, e2, hj, he2, hk2⟩
      rw [speakerBefore]
      cases hp : es[m]? with
      | none =>
          have hjm : j ≠ m := by
            intro hh
            rw [hh, hp] at he2
            cases he2
          exact ih ⟨j, e2, by omega, he2, hk2⟩
      | some e =>
          show (if e.kind = Kind.speaker then some e.original else speakerBefore es m) ≠ none
          by_cases hke : e.kind = Kind.speaker
          · rw [if_pos hke]
            intro hh
            cases hh
          · rw [if_neg hke]
            have hjm : j ≠ m := by
              intro hh
              rw [hh, hp] at he2
              cases he2
              exact hke hk2
            exact ih ⟨j, e2, by omega, he2, hk2⟩

/-- C10: every dialogue element in the parser's output is preceded by a
speaker element with no heading or scene marker in between, so the
derived speaker context of every dialogue element — as computed by the
driver's backward scan — is defined (not `none`). -/
theorem c10_dialogue_has_speaker_context (lines : List String) (i : Nat) (e : Element)
    (he : (parseLines lines)[i]? = some e) (hk : e.kind = Kind.dialogue) :
    (∃ (j : Nat) (e2 : Element), j < i ∧ (parseLines lines)[j]? = some e2 ∧
        e2.kind = Kind.speaker ∧
        ∀ (k : Nat) (x : Element), j < k → k < i → (parseLines lines)[k]? = some x →
          x.kind ≠ Kind.heading ∧ x.kind ≠ Kind.scene_marker) ∧
    speakerBefore (parseLines lines) i ≠ none := by
  have hg : GoodList (parseLines lines) := by
    have h := parseLinesAux_good lines none [] (CtxOK_none []) GoodList_nil
    rw [List.nil_append] at h
    exact h
  obtain ⟨j, e2, hj, he2, hk2, hw⟩ := hg i e he hk
  exact ⟨⟨j, e2, hj, he2, hk2, hw⟩,
    speakerBefore_isSome_of_exists _ i ⟨j, e2, hj, he2, hk2⟩⟩

/-- Closed instance: the dialogue line of `["ROMEO", "Hi."]` has a
defined speaker context. -/
theorem c10_dialogue_has_speaker_context_witness :
    (∃ (j : Nat) (e2 : Element), j < 1 ∧ (parseLines ["ROMEO", "Hi."])[j]? = some e2 ∧
        e2.kind = Kind.speaker ∧
        ∀ (k : Nat) (x : Element), j < k → k < 1 →
          (parseLines ["ROMEO", "Hi."])[k]? = some x →
          x.kind ≠ Kind.heading ∧ x.kind ≠ Kind.scene_marker) ∧
    speakerBefore (parseLines ["ROMEO", "Hi."]) 1 ≠ none :=
  c10_dialogue_has_speaker_context ["ROMEO", "Hi."] 1
    (mkEl Kind.dialogue "Hi." (some "")) (by decide) rfl
